import Mathlib

set_option maxRecDepth 100000

/-!
Verification of the go-openrouter streaming / resilience core.

This file embeds, in Lean, the parts of the repository that the spec's
testable properties are about:

* the SSE parser (`SSEParser.ParseNext` in `pkg/streaming`),
* the chat-completion stream reader (`ChatCompletionStreamReader.Read`),
* the JSON decoding of `models.ChatCompletionResponse` (a faithful model of
  Go `encoding/json` unmarshalling on the value subset used by the wire
  protocol: null, booleans, decimal numbers, strings with the common
  single-character escapes, arrays and objects),
* the retry executor (`RetryClient.CreateChatCompletion`, `calculateDelay`,
  `isRetryable` in `pkg/observability.go`),
* the circuit breaker (`CircuitBreaker.checkState` / `recordResult`),
* the bounded-concurrency dispatcher (`ConcurrentClient` in
  `pkg/openrouter/concurrent.go`), with scheduling nondeterminism made
  explicit as oracle parameters.

Byte streams and Go strings are modelled as `List Char`; Go machine integers
as `Int`/`Nat`; Go `time.Time`/`time.Duration` as integer nanoseconds;
float64 arithmetic in `calculateDelay` as exact rational arithmetic.
-/

namespace OpenRouter

/-- Convert a Lean string literal to the `List Char` representation used for
Go strings and byte streams throughout this development. -/
def cs (s : String) : List Char := s.data

/-- Go `unicode.IsSpace` restricted to the code points relevant for this
protocol (the Latin-1 range, which is what `strings.TrimSpace` consults for
ASCII/Latin-1 input): space, \t, \n, \v, \f, \r, NEL (U+0085), NBSP (U+00A0). -/
def goIsSpace (c : Char) : Bool :=
  c = ' ' || c = '\t' || c = '\n' || c.toNat = 11 || c.toNat = 12 || c = '\r' ||
  c.toNat = 133 || c.toNat = 160

/-- Left half of Go `strings.TrimSpace`. -/
def ltrim (l : List Char) : List Char := l.dropWhile goIsSpace

/-- Right half of Go `strings.TrimSpace`. -/
def rtrim (l : List Char) : List Char := (l.reverse.dropWhile goIsSpace).reverse

/-- Go `strings.TrimSpace`. -/
def trim (l : List Char) : List Char := ltrim (rtrim l)

/-- Go `strings.HasPrefix`. -/
def hasPrefix (l pre : List Char) : Bool := pre.isPrefixOf l

/-- Model of `bufio.Reader.ReadString('\n')` on the unread input: returns the
line up to and including the first newline together with the rest, or `none`
when no newline remains (in which case Go reports `io.EOF` and the partial
line, which `ParseNext` discards). -/
def splitAtNewline : List Char → Option (List Char × List Char)
  | [] => none
  | c :: rest =>
    if c = '\n' then some ([c], rest)
    else
      match splitAtNewline rest with
      | none => none
      | some (l, r) => some (c :: l, r)

/-- Model of `strings.Index(line, ":")` followed by the `line[:i]` /
`line[i+1:]` slicing in `ParseNext`: splits at the first colon. -/
def splitFirstColon : List Char → Option (List Char × List Char)
  | [] => none
  | c :: rest =>
    if c = ':' then some ([], rest)
    else
      match splitFirstColon rest with
      | none => none
      | some (f, v) => some (c :: f, v)

/-- Model of `streaming.SSEEvent`. -/
structure SSEEvent where
  Event : List Char
  Data : List Char
  ID : List Char
deriving Repr, DecidableEq

/-- The loop-local accumulator of `SSEParser.ParseNext`: the `event` variable
(its `Event` and `ID` fields) and the `dataBuffer`. -/
structure EventAcc where
  ev : List Char
  id : List Char
  buf : List Char
deriving Repr, DecidableEq

/-- Model of `streaming.SSEParser`: the unread input of its buffered reader plus the
`closed` flag. -/
structure SSEParser where
  remaining : List Char
  closed : Bool
deriving Repr, DecidableEq

/-- Errors `ParseNext` can return in this model: `io.EOF` and
`ErrStreamClosed` ("stream is closed").  The in-memory byte source never
fails otherwise, so the wrapped-read-error branch of the Go code is
unreachable here. -/
inductive ParseErr where
  | eofErr
  | streamClosed
deriving Repr, DecidableEq

/-- The body of the `for` loop in `SSEParser.ParseNext`, fuelled: one fuel
unit per line read.  Returns the result together with the unread input and
the new `closed` flag.  Any fuel of at least `input.length + 1` is enough,
because every iteration consumes at least one input character. -/
def parseLoop : Nat → EventAcc → List Char → (Except ParseErr SSEEvent) × List Char × Bool
  | 0, _, input => (.error .eofErr, input, true)
  | fuel + 1, acc, input =>
    match splitAtNewline input with
    | none =>
      -- ReadString returned io.EOF (any partial line is discarded by the code)
      if acc.buf ≠ [] then (.ok ⟨acc.ev, acc.buf, acc.id⟩, [], true)
      else (.error .eofErr, [], true)
    | some (line, rest) =>
      let tline := trim line
      if tline = [] ∧ acc.buf ≠ [] then (.ok ⟨acc.ev, acc.buf, acc.id⟩, rest, false)
      else if tline = [] ∨ hasPrefix tline (cs ":") then parseLoop fuel acc rest
      else
        match splitFirstColon tline with
        | none => parseLoop fuel acc rest
        | some (field, rawValue) =>
          let value := trim rawValue
          if field = cs "event" then parseLoop fuel { acc with ev := value } rest
          else if field = cs "data" then
            parseLoop fuel
              { acc with buf := if acc.buf ≠ [] then acc.buf ++ '\n' :: value else value } rest
          else if field = cs "id" then parseLoop fuel { acc with id := value } rest
          else parseLoop fuel acc rest

/-- Model of `SSEParser.ParseNext`. -/
def parseNext (p : SSEParser) : (Except ParseErr SSEEvent) × SSEParser :=
  if p.closed then (.error .streamClosed, p)
  else
    match parseLoop (p.remaining.length + 1) ⟨[], [], []⟩ p.remaining with
    | (r, rem, cl) => (r, ⟨rem, cl⟩)

/-- Model of `streaming.NewSSEParser` applied to an in-memory byte stream. -/
def newSSEParser (input : List Char) : SSEParser := ⟨input, false⟩

/-! ### JSON values and parsing

A faithful model of the `encoding/json` value grammar on the subset the wire
protocol uses: `null`, booleans, decimal numbers without exponents (exact
rationals; the claims only inspect integer fields), strings with the
single-character escapes, arrays and objects.  Object keys are matched
exactly (the wire protocol uses exact lowercase keys). -/

/-- A parsed JSON value. -/
inductive JVal where
  | jnull
  | jbool (b : Bool)
  | jnum (q : ℚ)
  | jstr (s : List Char)
  | jarr (elems : List JVal)
  | jobj (fields : List (List Char × JVal))
deriving Repr

/-- The `{` character, named to keep brace characters out of literals. -/
def lbrace : Char := Char.ofNat 123

/-- The `}` character. -/
def rbrace : Char := Char.ofNat 125

/-- JSON insignificant whitespace. -/
def jsonWsChar (c : Char) : Bool := c = ' ' || c = '\t' || c = '\n' || c = '\r'

/-- Skip insignificant whitespace. -/
def skipWs (l : List Char) : List Char := l.dropWhile jsonWsChar

/-- Decimal digits to a natural number. -/
def digitsToNat (ds : List Char) : Nat := ds.foldl (fun n c => 10 * n + (c.toNat - 48)) 0

/-- JSON string escapes (the `\u` form is outside the modelled subset). -/
def unescapeChar (c : Char) : Option Char :=
  if c = '"' then some '"'
  else if c = '\\' then some '\\'
  else if c = '/' then some '/'
  else if c = 'n' then some '\n'
  else if c = 't' then some '\t'
  else if c = 'r' then some '\r'
  else if c = 'b' then some (Char.ofNat 8)
  else if c = 'f' then some (Char.ofNat 12)
  else none

/-- Parse the body of a JSON string after the opening quote, returning the
decoded characters and the input after the closing quote. -/
def parseStringBody : Nat → List Char → Option (List Char × List Char)
  | 0, _ => none
  | _ + 1, [] => none
  | fuel + 1, c :: rest =>
    if c = '"' then some ([], rest)
    else if c = '\\' then
      match rest with
      | [] => none
      | e :: rest2 =>
        match unescapeChar e with
        | none => none
        | some u =>
          match parseStringBody fuel rest2 with
          | none => none
          | some (s, r) => some (u :: s, r)
    else
      match parseStringBody fuel rest with
      | none => none
      | some (s, r) => some (c :: s, r)

/-- Parse a JSON number (optional minus, integer part, optional fraction). -/
def parseNumber (l : List Char) : Option (ℚ × List Char) :=
  let p := match l with
    | '-' :: r => (true, r)
    | _ => (false, l)
  let ip := p.2.span Char.isDigit
  if ip.1 = [] then none
  else
    let intval : ℚ := (digitsToNat ip.1 : ℚ)
    match ip.2 with
    | '.' :: l3 =>
      let fp := l3.span Char.isDigit
      if fp.1 = [] then none
      else
        let v := intval + (digitsToNat fp.1 : ℚ) / ((10 : ℚ) ^ fp.1.length)
        some (if p.1 then -v else v, fp.2)
    | _ => some (if p.1 then -intval else intval, ip.2)

mutual

/-- Parse one JSON value; the fuel bounds nesting and is in practice
`input.length + 1`. -/
def parseValue : Nat → List Char → Option (JVal × List Char)
  | 0, _ => none
  | fuel + 1, l =>
    match skipWs l with
    | [] => none
    | c :: rest =>
      if c = lbrace then parseMembers fuel rest
      else if c = '[' then parseElems fuel rest
      else if c = '"' then
        match parseStringBody (rest.length + 1) rest with
        | none => none
        | some (s, r) => some (.jstr s, r)
      else if hasPrefix (c :: rest) (cs "true") then some (.jbool true, rest.drop 3)
      else if hasPrefix (c :: rest) (cs "false") then some (.jbool false, rest.drop 4)
      else if hasPrefix (c :: rest) (cs "null") then some (.jnull, rest.drop 3)
      else
        match parseNumber (c :: rest) with
        | none => none
        | some (q, r) => some (.jnum q, r)

/-- Parse object members after the opening brace (empty object allowed). -/
def parseMembers : Nat → List Char → Option (JVal × List Char)
  | 0, _ => none
  | fuel + 1, l =>
    match skipWs l with
    | c :: rest =>
      if c = rbrace then some (.jobj [], rest)
      else parseMembersRest fuel (c :: rest)
    | [] => none

/-- Parse a nonempty member list up to and including the closing brace. -/
def parseMembersRest : Nat → List Char → Option (JVal × List Char)
  | 0, _ => none
  | fuel + 1, l =>
    match skipWs l with
    | '"' :: rest =>
      match parseStringBody (rest.length + 1) rest with
      | none => none
      | some (key, r1) =>
        match skipWs r1 with
        | ':' :: r2 =>
          match parseValue fuel r2 with
          | none => none
          | some (v, r3) =>
            match skipWs r3 with
            | ',' :: r4 =>
              match parseMembersRest fuel r4 with
              | none => none
              | some (.jobj fs, r5) => some (.jobj ((key, v) :: fs), r5)
              | some _ => none
            | d :: r4 =>
              if d = rbrace then some (.jobj [(key, v)], r4) else none
            | [] => none
        | _ => none
    | _ => none

/-- Parse array elements after the opening bracket (empty array allowed). -/
def parseElems : Nat → List Char → Option (JVal × List Char)
  | 0, _ => none
  | fuel + 1, l =>
    match skipWs l with
    | ']' :: rest => some (.jarr [], rest)
    | other => parseElemsRest fuel other

/-- Parse a nonempty element list up to and including the closing bracket. -/
def parseElemsRest : Nat → List Char → Option (JVal × List Char)
  | 0, _ => none
  | fuel + 1, l =>
    match parseValue fuel l with
    | none => none
    | some (v, r1) =>
      match skipWs r1 with
      | ',' :: r2 =>
        match parseElemsRest fuel r2 with
        | none => none
        | some (.jarr xs, r3) => some (.jarr (v :: xs), r3)
        | some _ => none
      | ']' :: r2 => some (.jarr [v], r2)
      | _ => none

end

/-- Model of a whole-input `json.Unmarshal` parse: the value must be followed
only by whitespace.  The fuel `3 * length + 3` dominates the recursion depth
of `parseValue`/`parseMembers`/`parseElems`, each of which consumes fuel at
most three times per input character. -/
def parseJson (l : List Char) : Option JVal :=
  match parseValue (3 * l.length + 3) l with
  | some (v, rest) => if skipWs rest = [] then some v else none
  | none => none

/-! ### The response data model (`pkg/models`)

Go strings become `List Char`, Go `int`/`int64` become `Int`, `float64`
becomes `ℚ`, pointers become `Option`, slices become `List`,
`json.RawMessage` and `map[string]interface{}` fields are kept as parsed
JSON values (`Option JVal`, `none` for a nil pointer / absent raw message).
Field names follow the Go source (`Type` gains an underscore because it is a
Lean keyword). -/

/-- Model of `models.FunctionCall`. -/
structure FunctionCall where
  Name : List Char
  Arguments : List Char
deriving Repr

/-- Model of `models.ToolCall`. -/
structure ToolCall where
  ID : List Char
  Type_ : List Char
  Function : FunctionCall
deriving Repr

/-- Model of `models.URLCitation`. -/
structure URLCitation where
  URL : List Char
  Title : List Char
  Content : List Char
  StartIndex : Int
  EndIndex : Int
deriving Repr

/-- Model of `models.FileAnnotation` (`FileData` is a `map[string]interface{}`). -/
structure FileAnnotation where
  Filename : List Char
  FileData : Option JVal
deriving Repr

/-- Model of `models.Annotation`. -/
structure Annotation where
  Type_ : List Char
  URLCitation : Option OpenRouter.URLCitation
  File : Option FileAnnotation
deriving Repr

/-- Model of `models.Message` (`Content` is a `json.RawMessage`: the raw JSON value,
`none` when absent). -/
structure Message where
  Role : List Char
  Content : Option JVal
  Name : List Char
  ToolCallID : List Char
  ToolCalls : List ToolCall
  Annotations : List Annotation
deriving Repr

/-- Model of `models.ChoiceError` (`Metadata` is a `map[string]interface{}`). -/
structure ChoiceError where
  Code : Int
  Message : List Char
  Metadata : Option JVal
deriving Repr

/-- Model of `models.Usage`. -/
structure Usage where
  PromptTokens : Int
  CompletionTokens : Int
  TotalTokens : Int
deriving Repr

/-- Model of `models.TopLogProbContent`. -/
structure TopLogProbContent where
  Token : List Char
  Logprob : ℚ
  Bytes : List Int
deriving Repr

/-- Model of `models.LogProbContent`. -/
structure LogProbContent where
  Token : List Char
  Logprob : ℚ
  Bytes : List Int
  TopLogprobs : List TopLogProbContent
deriving Repr

/-- Model of `models.LogProbs`. -/
structure LogProbs where
  Content : List LogProbContent
deriving Repr

/-- Model of `models.Choice`. -/
structure Choice where
  Index : Int
  Message : Option OpenRouter.Message
  Delta : Option OpenRouter.Message
  FinishReason : List Char
  NativeFinishReason : List Char
  Error : Option ChoiceError
  Logprobs : Option LogProbs
deriving Repr

/-- Model of `models.ChatCompletionResponse`. -/
structure ChatCompletionResponse where
  ID : List Char
  Object : List Char
  Created : Int
  Model : List Char
  Choices : List Choice
  Usage : Option OpenRouter.Usage
  SystemFingerprint : List Char
deriving Repr

/-- Go zero value of `FunctionCall`. -/
def zeroFunctionCall : FunctionCall := ⟨[], []⟩

/-- Go zero value of `ToolCall`. -/
def zeroToolCall : ToolCall := ⟨[], [], zeroFunctionCall⟩

/-- Go zero value of `URLCitation`. -/
def zeroURLCitation : URLCitation := ⟨[], [], [], 0, 0⟩

/-- Go zero value of `FileAnnotation`. -/
def zeroFileAnnotation : FileAnnotation := ⟨[], none⟩

/-- Go zero value of `Annotation`. -/
def zeroAnnotation : Annotation := ⟨[], none, none⟩

/-- Go zero value of `Message`. -/
def zeroMessage : Message := ⟨[], none, [], [], [], []⟩

/-- Go zero value of `ChoiceError`. -/
def zeroChoiceError : ChoiceError := ⟨0, [], none⟩

/-- Go zero value of `Usage`. -/
def zeroUsage : Usage := ⟨0, 0, 0⟩

/-- Go zero value of `TopLogProbContent`. -/
def zeroTopLogProbContent : TopLogProbContent := ⟨[], 0, []⟩

/-- Go zero value of `LogProbContent`. -/
def zeroLogProbContent : LogProbContent := ⟨[], 0, [], []⟩

/-- Go zero value of `LogProbs`. -/
def zeroLogProbs : LogProbs := ⟨[]⟩

/-- Go zero value of `Choice`. -/
def zeroChoice : Choice := ⟨0, none, none, [], [], none, none⟩

/-- Go zero value of `ChatCompletionResponse`. -/
def zeroChatCompletionResponse : ChatCompletionResponse := ⟨[], [], 0, [], [], none, []⟩

/-! ### `encoding/json` unmarshalling into the model structs

Each decoder folds over the object's members in order (so a duplicated key is
resolved the way Go resolves it: the last occurrence wins), updates the known
fields, ignores unknown keys, fails on a type mismatch, and treats JSON
`null` the way Go does: a no-op on scalar fields, `nil` for pointer and slice
fields, and a no-op on a whole struct. -/

/-- Unmarshal into a Go `string` field. -/
def updString (cur : List Char) : JVal → Option (List Char)
  | .jnull => some cur
  | .jstr s => some s
  | _ => none

/-- Unmarshal into a Go `int`/`int64` field (the number must be integral). -/
def updInt (cur : Int) : JVal → Option Int
  | .jnull => some cur
  | .jnum q => if q.den = 1 then some q.num else none
  | _ => none

/-- Unmarshal into a Go `float64` field. -/
def updRat (cur : ℚ) : JVal → Option ℚ
  | .jnull => some cur
  | .jnum q => some q
  | _ => none

/-- Unmarshal into a Go pointer field (`null` sets the pointer to nil). -/
def updPtr {α : Type} (dec : JVal → Option α) : JVal → Option (Option α)
  | .jnull => some none
  | v => (dec v).map some

/-- Unmarshal into a Go slice field (`null` sets the slice to nil). -/
def updSlice {α : Type} (dec : JVal → Option α) : JVal → Option (List α)
  | .jnull => some []
  | .jarr xs => xs.mapM dec
  | _ => none

/-- Unmarshal into a Go `map[string]interface{}` field. -/
def updMapAny : JVal → Option (Option JVal)
  | .jnull => some none
  | .jobj fs => some (some (.jobj fs))
  | _ => none

/-- Unmarshal into a Go `json.RawMessage` field (captures any value). -/
def updRaw (v : JVal) : Option (Option JVal) := some (some v)

/-- Unmarshal a `models.FunctionCall`. -/
def decodeFunctionCall : JVal → Option FunctionCall
  | .jnull => some zeroFunctionCall
  | .jobj fs =>
    fs.foldlM (fun m kv =>
      if kv.1 = cs "name" then (updString m.Name kv.2).map (fun x => { m with Name := x })
      else if kv.1 = cs "arguments" then
        (updString m.Arguments kv.2).map (fun x => { m with Arguments := x })
      else some m) zeroFunctionCall
  | _ => none

/-- Unmarshal a `models.ToolCall`. -/
def decodeToolCall : JVal → Option ToolCall
  | .jnull => some zeroToolCall
  | .jobj fs =>
    fs.foldlM (fun m kv =>
      if kv.1 = cs "id" then (updString m.ID kv.2).map (fun x => { m with ID := x })
      else if kv.1 = cs "type" then (updString m.Type_ kv.2).map (fun x => { m with Type_ := x })
      else if kv.1 = cs "function" then
        (match kv.2 with
          | .jnull => some m.Function
          | v => decodeFunctionCall v).map (fun x => { m with Function := x })
      else some m) zeroToolCall
  | _ => none

/-- Unmarshal a `models.URLCitation`. -/
def decodeURLCitation : JVal → Option URLCitation
  | .jnull => some zeroURLCitation
  | .jobj fs =>
    fs.foldlM (fun m kv =>
      if kv.1 = cs "url" then (updString m.URL kv.2).map (fun x => { m with URL := x })
      else if kv.1 = cs "title" then (updString m.Title kv.2).map (fun x => { m with Title := x })
      else if kv.1 = cs "content" then
        (updString m.Content kv.2).map (fun x => { m with Content := x })
      else if kv.1 = cs "start_index" then
        (updInt m.StartIndex kv.2).map (fun x => { m with StartIndex := x })
      else if kv.1 = cs "end_index" then
        (updInt m.EndIndex kv.2).map (fun x => { m with EndIndex := x })
      else some m) zeroURLCitation
  | _ => none

/-- Unmarshal a `models.FileAnnotation`. -/
def decodeFileAnnotation : JVal → Option FileAnnotation
  | .jnull => some zeroFileAnnotation
  | .jobj fs =>
    fs.foldlM (fun m kv =>
      if kv.1 = cs "filename" then
        (updString m.Filename kv.2).map (fun x => { m with Filename := x })
      else if kv.1 = cs "file_data" then
        (updMapAny kv.2).map (fun x => { m with FileData := x })
      else some m) zeroFileAnnotation
  | _ => none

/-- Unmarshal a `models.Annotation`. -/
def decodeAnnotation : JVal → Option Annotation
  | .jnull => some zeroAnnotation
  | .jobj fs =>
    fs.foldlM (fun m kv =>
      if kv.1 = cs "type" then (updString m.Type_ kv.2).map (fun x => { m with Type_ := x })
      else if kv.1 = cs "url_citation" then
        (updPtr decodeURLCitation kv.2).map (fun x => { m with URLCitation := x })
      else if kv.1 = cs "file" then
        (updPtr decodeFileAnnotation kv.2).map (fun x => { m with File := x })
      else some m) zeroAnnotation
  | _ => none

/-- Unmarshal a `models.Message`. -/
def decodeMessage : JVal → Option Message
  | .jnull => some zeroMessage
  | .jobj fs =>
    fs.foldlM (fun m kv =>
      if kv.1 = cs "role" then (updString m.Role kv.2).map (fun x => { m with Role := x })
      else if kv.1 = cs "content" then (updRaw kv.2).map (fun x => { m with Content := x })
      else if kv.1 = cs "name" then (updString m.Name kv.2).map (fun x => { m with Name := x })
      else if kv.1 = cs "tool_call_id" then
        (updString m.ToolCallID kv.2).map (fun x => { m with ToolCallID := x })
      else if kv.1 = cs "tool_calls" then
        (updSlice decodeToolCall kv.2).map (fun x => { m with ToolCalls := x })
      else if kv.1 = cs "annotations" then
        (updSlice decodeAnnotation kv.2).map (fun x => { m with Annotations := x })
      else some m) zeroMessage
  | _ => none

/-- Unmarshal a `models.ChoiceError`. -/
def decodeChoiceError : JVal → Option ChoiceError
  | .jnull => some zeroChoiceError
  | .jobj fs =>
    fs.foldlM (fun m kv =>
      if kv.1 = cs "code" then (updInt m.Code kv.2).map (fun x => { m with Code := x })
      else if kv.1 = cs "message" then
        (updString m.Message kv.2).map (fun x => { m with Message := x })
      else if kv.1 = cs "metadata" then
        (updMapAny kv.2).map (fun x => { m with Metadata := x })
      else some m) zeroChoiceError
  | _ => none

/-- Unmarshal a `models.Usage`. -/
def decodeUsage : JVal → Option Usage
  | .jnull => some zeroUsage
  | .jobj fs =>
    fs.foldlM (fun m kv =>
      if kv.1 = cs "prompt_tokens" then
        (updInt m.PromptTokens kv.2).map (fun x => { m with PromptTokens := x })
      else if kv.1 = cs "completion_tokens" then
        (updInt m.CompletionTokens kv.2).map (fun x => { m with CompletionTokens := x })
      else if kv.1 = cs "total_tokens" then
        (updInt m.TotalTokens kv.2).map (fun x => { m with TotalTokens := x })
      else some m) zeroUsage
  | _ => none

/-- Unmarshal a `models.TopLogProbContent`. -/
def decodeTopLogProbContent : JVal → Option TopLogProbContent
  | .jnull => some zeroTopLogProbContent
  | .jobj fs =>
    fs.foldlM (fun m kv =>
      if kv.1 = cs "token" then (updString m.Token kv.2).map (fun x => { m with Token := x })
      else if kv.1 = cs "logprob" then
        (updRat m.Logprob kv.2).map (fun x => { m with Logprob := x })
      else if kv.1 = cs "bytes" then
        (updSlice (updInt 0) kv.2).map (fun x => { m with Bytes := x })
      else some m) zeroTopLogProbContent
  | _ => none

/-- Unmarshal a `models.LogProbContent`. -/
def decodeLogProbContent : JVal → Option LogProbContent
  | .jnull => some zeroLogProbContent
  | .jobj fs =>
    fs.foldlM (fun m kv =>
      if kv.1 = cs "token" then (updString m.Token kv.2).map (fun x => { m with Token := x })
      else if kv.1 = cs "logprob" then
        (updRat m.Logprob kv.2).map (fun x => { m with Logprob := x })
      else if kv.1 = cs "bytes" then
        (updSlice (updInt 0) kv.2).map (fun x => { m with Bytes := x })
      else if kv.1 = cs "top_logprobs" then
        (updSlice decodeTopLogProbContent kv.2).map (fun x => { m with TopLogprobs := x })
      else some m) zeroLogProbContent
  | _ => none

/-- Unmarshal a `models.LogProbs`. -/
def decodeLogProbs : JVal → Option LogProbs
  | .jnull => some zeroLogProbs
  | .jobj fs =>
    fs.foldlM (fun m kv =>
      if kv.1 = cs "content" then
        (updSlice decodeLogProbContent kv.2).map (fun x => { m with Content := x })
      else some m) zeroLogProbs
  | _ => none

/-- Unmarshal a `models.Choice`. -/
def decodeChoice : JVal → Option Choice
  | .jnull => some zeroChoice
  | .jobj fs =>
    fs.foldlM (fun m kv =>
      if kv.1 = cs "index" then (updInt m.Index kv.2).map (fun x => { m with Index := x })
      else if kv.1 = cs "message" then
        (updPtr decodeMessage kv.2).map (fun x => { m with Message := x })
      else if kv.1 = cs "delta" then
        (updPtr decodeMessage kv.2).map (fun x => { m with Delta := x })
      else if kv.1 = cs "finish_reason" then
        (updString m.FinishReason kv.2).map (fun x => { m with FinishReason := x })
      else if kv.1 = cs "native_finish_reason" then
        (updString m.NativeFinishReason kv.2).map (fun x => { m with NativeFinishReason := x })
      else if kv.1 = cs "error" then
        (updPtr decodeChoiceError kv.2).map (fun x => { m with Error := x })
      else if kv.1 = cs "logprobs" then
        (updPtr decodeLogProbs kv.2).map (fun x => { m with Logprobs := x })
      else some m) zeroChoice
  | _ => none

/-- Unmarshal a `models.ChatCompletionResponse`. -/
def decodeChatCompletionResponse : JVal → Option ChatCompletionResponse
  | .jnull => some zeroChatCompletionResponse
  | .jobj fs =>
    fs.foldlM (fun m kv =>
      if kv.1 = cs "id" then (updString m.ID kv.2).map (fun x => { m with ID := x })
      else if kv.1 = cs "object" then
        (updString m.Object kv.2).map (fun x => { m with Object := x })
      else if kv.1 = cs "created" then
        (updInt m.Created kv.2).map (fun x => { m with Created := x })
      else if kv.1 = cs "model" then (updString m.Model kv.2).map (fun x => { m with Model := x })
      else if kv.1 = cs "choices" then
        (updSlice decodeChoice kv.2).map (fun x => { m with Choices := x })
      else if kv.1 = cs "usage" then
        (updPtr decodeUsage kv.2).map (fun x => { m with Usage := x })
      else if kv.1 = cs "system_fingerprint" then
        (updString m.SystemFingerprint kv.2).map (fun x => { m with SystemFingerprint := x })
      else some m) zeroChatCompletionResponse
  | _ => none

/-- Unmarshal the anonymous `errorCheck` struct of
`ChatCompletionStreamReader.Read`: `struct { Error *models.ChoiceError }`
with tag `error,omitempty`. -/
def decodeErrorCheck : JVal → Option (Option ChoiceError)
  | .jnull => some none
  | .jobj fs =>
    fs.foldlM (fun m kv =>
      if kv.1 = cs "error" then updPtr decodeChoiceError kv.2
      else some m) none
  | _ => none

/-! ### The chat-completion stream reader (`ChatCompletionStreamReader.Read`) -/

/-- Errors `Read` can surface: `io.EOF` (also the `[DONE]` translation),
`ErrStreamClosed` propagated from the parser, the formatted
"openrouter error %d: %s" remote error, and the
"failed to parse response" decode error. -/
inductive ReadErr where
  | eofErr
  | streamClosed
  | remoteError (code : Int) (msg : List Char)
  | parseFailed
deriving Repr, DecidableEq

/-- The Go error message of a `ReadErr` (`io.EOF.Error()` is "EOF"); used by
the streaming dispatcher, which compares `err.Error()` with "EOF". -/
def readErrMessage : ReadErr → List Char
  | .eofErr => cs "EOF"
  | .streamClosed => cs "stream is closed"
  | .remoteError _ _ => cs "openrouter error"
  | .parseFailed => cs "failed to parse response"

/-- Model of `ChatCompletionStreamReader.Read`, fuelled for its recursive self-call on
keep-alive events (one fuel unit per parsed event; any fuel of at least
`remaining.length + 1` is enough because every parsed event consumes input
or closes the parser). -/
def streamReadAux : Nat → SSEParser → (Except ReadErr ChatCompletionResponse) × SSEParser
  | 0, p => (.error .parseFailed, p)
  | fuel + 1, p =>
    match parseNext p with
    | (.error .eofErr, p') => (.error .eofErr, p')
    | (.error .streamClosed, p') => (.error .streamClosed, p')
    | (.ok ev, p') =>
      if hasPrefix ev.Data (cs ": ") then streamReadAux fuel p'
      else if ev.Data = cs "[DONE]" then (.error .eofErr, p')
      else
        match parseJson ev.Data with
        | none => (.error .parseFailed, p')
        | some v =>
          match decodeErrorCheck v with
          | some (some e) => (.error (.remoteError e.Code e.Message), p')
          | _ =>
            match decodeChatCompletionResponse v with
            | some resp => (.ok resp, p')
            | none => (.error .parseFailed, p')

/-- One call to `ChatCompletionStreamReader.Read`. -/
def streamRead (p : SSEParser) : (Except ReadErr ChatCompletionResponse) × SSEParser :=
  streamReadAux (p.remaining.length + 1) p

/-- Drive `Read` to its first error, collecting the chunks it yields; this is
the caller-side read loop of the streaming examples and of the concurrent
stream dispatcher. -/
def readAllAux : Nat → SSEParser → List ChatCompletionResponse × ReadErr
  | 0, _ => ([], .parseFailed)
  | fuel + 1, p =>
    match streamRead p with
    | (.ok c, p') =>
      match readAllAux fuel p' with
      | (rest, e) => (c :: rest, e)
    | (.error e, _) => ([], e)

/-- Read a whole in-memory SSE byte stream: the yielded chunks in order and
the terminal error. -/
def readAll (input : List Char) : List ChatCompletionResponse × ReadErr :=
  readAllAux (input.length + 1) (newSSEParser input)

/-! ### Groundwork lemmas about the line and whitespace primitives -/

theorem cs_dataPrefix : cs "data: " = 'd' :: 'a' :: 't' :: 'a' :: ':' :: ' ' :: [] := rfl

theorem splitAtNewline_append {pre rest : List Char} (h : '\n' ∉ pre) :
    splitAtNewline (pre ++ '\n' :: rest) = some (pre ++ ['\n'], rest) := by
  induction pre with
  | nil => simp [splitAtNewline]
  | cons c tl ih =>
    simp only [List.mem_cons, not_or] at h
    simp only [List.cons_append, splitAtNewline]
    rw [if_neg (fun hc => h.1 hc.symm)]
    simp only [List.append_eq]
    rw [ih h.2]

theorem splitAtNewline_none {l : List Char} (h : '\n' ∉ l) : splitAtNewline l = none := by
  induction l with
  | nil => rfl
  | cons c tl ih =>
    simp only [List.mem_cons, not_or] at h
    simp only [splitAtNewline]
    rw [if_neg (fun hc => h.1 hc.symm), ih h.2]

theorem rtrim_concat_space {c : Char} (h : goIsSpace c = true) (l : List Char) :
    rtrim (l ++ [c]) = rtrim l := by
  simp [rtrim, List.dropWhile_cons, h]

theorem rtrim_concat_nonspace {c : Char} (h : goIsSpace c = false) (l : List Char) :
    rtrim (l ++ [c]) = l ++ [c] := by
  simp [rtrim, List.dropWhile_cons, h]

theorem rtrim_last_nonspace {d0 : List Char} {c : Char} (h : rtrim (d0 ++ [c]) = d0 ++ [c]) :
    goIsSpace c = false := by
  by_contra hc
  rw [Bool.not_eq_false] at hc
  rw [rtrim_concat_space hc] at h
  have hlen := congrArg List.length h
  have hle : (rtrim d0).length ≤ d0.length := by
    have := List.IsSuffix.length_le (List.dropWhile_suffix (l := d0.reverse) goIsSpace)
    simpa [rtrim] using this
  simp [List.length_append] at hlen
  omega

theorem rtrim_append {x d : List Char} (hd : d ≠ []) (hr : rtrim d = d) :
    rtrim (x ++ d) = x ++ d := by
  rcases List.eq_nil_or_concat d with h | ⟨d0, c, hcat⟩
  · exact absurd h hd
  · rw [List.concat_eq_append] at hcat
    subst hcat
    have hc : goIsSpace c = false := rtrim_last_nonspace hr
    rw [← List.append_assoc, rtrim_concat_nonspace hc, List.append_assoc]

theorem ltrim_head_nonspace {c : Char} {t : List Char} (h : ltrim (c :: t) = c :: t) :
    goIsSpace c = false := by
  by_contra hc
  rw [Bool.not_eq_false] at hc
  rw [ltrim, List.dropWhile_cons, if_pos hc] at h
  have hlen := congrArg List.length h
  have hle := List.IsSuffix.length_le (List.dropWhile_suffix (l := t) goIsSpace)
  simp at hlen
  omega

theorem trim_data_line {d : List Char} (hd : d ≠ []) (hr : rtrim d = d) :
    trim ((cs "data: " ++ d) ++ ['\n']) = cs "data: " ++ d := by
  rw [trim, rtrim_concat_space (by decide), rtrim_append hd hr, cs_dataPrefix]
  simp only [List.cons_append, List.nil_append, ltrim, List.dropWhile_cons]
  rw [if_neg (by decide)]

theorem trim_space_value {d : List Char} (hd : d ≠ []) (hl : ltrim d = d) (hr : rtrim d = d) :
    trim (' ' :: d) = d := by
  rw [trim, show (' ' :: d) = [' '] ++ d from rfl, rtrim_append hd hr]
  simp only [List.singleton_append, ltrim, List.dropWhile_cons]
  rw [if_pos (by decide)]
  exact hl

theorem hasPrefix_data_colon (d : List Char) : hasPrefix (cs "data: " ++ d) (cs ":") = false := rfl

theorem splitFirstColon_data (d : List Char) :
    splitFirstColon (cs "data: " ++ d) = some (cs "data", ' ' :: d) := rfl

/-! ### Step lemmas for `ParseNext` -/

/-- A payload that survives the line handling of `ParseNext` unchanged:
nonempty, newline-free, and stable under `TrimSpace` on both sides. -/
def WfLine (d : List Char) : Prop :=
  d ≠ [] ∧ '\n' ∉ d ∧ ltrim d = d ∧ rtrim d = d

instance (d : List Char) : Decidable (WfLine d) := by
  unfold WfLine
  infer_instance

/-- The `dataBuffer` update of `ParseNext` for one `data:` line. -/
def appendData (buf d : List Char) : List Char :=
  if buf ≠ [] then buf ++ '\n' :: d else d

theorem parseLoop_data_line {d : List Char} (hwf : WfLine d) (fuel : Nat) (acc : EventAcc)
    (rest : List Char) :
    parseLoop (fuel + 1) acc (cs "data: " ++ (d ++ '\n' :: rest)) =
      parseLoop fuel { acc with buf := appendData acc.buf d } rest := by
  obtain ⟨hd, hn, hl, hr⟩ := hwf
  have hmem : '\n' ∉ cs "data: " ++ d := by
    rw [cs_dataPrefix]
    simp only [List.cons_append, List.nil_append, List.mem_cons, not_or]
    refine ⟨by decide, by decide, by decide, by decide, by decide, by decide, hn⟩
  have hsplit : splitAtNewline (cs "data: " ++ (d ++ '\n' :: rest)) =
      some ((cs "data: " ++ d) ++ ['\n'], rest) := by
    rw [show cs "data: " ++ (d ++ '\n' :: rest) = (cs "data: " ++ d) ++ '\n' :: rest by
      simp [List.append_assoc]]
    exact splitAtNewline_append hmem
  have hne : cs "data: " ++ d ≠ [] := by rw [cs_dataPrefix]; simp
  simp only [parseLoop, hsplit, trim_data_line hd hr]
  rw [if_neg (by simp [hne]), if_neg (by simp [hne, hasPrefix_data_colon d]),
    splitFirstColon_data d]
  simp only [if_true]
  rw [trim_space_value hd hl hr]
  rfl

theorem parseLoop_blank_line (fuel : Nat) (acc : EventAcc) (rest : List Char)
    (hbuf : acc.buf ≠ []) :
    parseLoop (fuel + 1) acc ('\n' :: rest) = (.ok ⟨acc.ev, acc.buf, acc.id⟩, rest, false) := by
  have hsplit : splitAtNewline ('\n' :: rest) = some (['\n'], rest) := by
    simp [splitAtNewline]
  simp only [parseLoop, hsplit]
  rw [if_pos ⟨by decide, hbuf⟩]

theorem parseLoop_eof (fuel : Nat) (acc : EventAcc) {l : List Char} (h : '\n' ∉ l) :
    parseLoop (fuel + 1) acc l =
      if acc.buf ≠ [] then (.ok ⟨acc.ev, acc.buf, acc.id⟩, [], true)
      else (.error .eofErr, [], true) := by
  simp only [parseLoop, splitAtNewline_none h]

theorem parseNext_closed (p : SSEParser) (h : p.closed = true) :
    parseNext p = (.error .streamClosed, p) := by
  simp [parseNext, h]

theorem parseNext_event {d : List Char} (hwf : WfLine d) (rest : List Char) :
    parseNext ⟨cs "data: " ++ (d ++ '\n' :: '\n' :: rest), false⟩ =
      (.ok ⟨[], d, []⟩, ⟨rest, false⟩) := by
  have hd := hwf.1
  simp only [parseNext, Bool.false_eq_true, if_false]
  rw [show (cs "data: " ++ (d ++ '\n' :: '\n' :: rest)).length + 1 =
      (d.length + rest.length + 7) + 1 + 1 by
    simp [cs_dataPrefix, List.length_append]; omega]
  rw [parseLoop_data_line hwf]
  rw [parseLoop_blank_line]
  · rfl
  · simpa [appendData] using hd

/-! ### Accumulation across `data:` lines (end-of-stream flush, claim C2) -/

/-- N `data:` lines with no terminating blank line. -/
def encodeDataLines (ds : List (List Char)) : List Char :=
  (ds.map fun d => cs "data: " ++ (d ++ ['\n'])).flatten

/-- The newline-join the `dataBuffer` performs across multiple `data:` lines. -/
def joinNL : List (List Char) → List Char
  | [] => []
  | [d] => d
  | d :: ds => d ++ '\n' :: joinNL ds

theorem parseLoop_lines (ds : List (List Char)) (fuel : Nat) (acc : EventAcc)
    (hfuel : ds.length + 1 ≤ fuel) (hwf : ∀ d ∈ ds, WfLine d) :
    parseLoop fuel acc (encodeDataLines ds) =
      if ds.foldl appendData acc.buf ≠ [] then
        (.ok ⟨acc.ev, ds.foldl appendData acc.buf, acc.id⟩, [], true)
      else (.error .eofErr, [], true) := by
  induction ds generalizing fuel acc with
  | nil =>
    obtain ⟨f, rfl⟩ : ∃ f, fuel = f + 1 := ⟨fuel - 1, by omega⟩
    simpa [encodeDataLines] using parseLoop_eof f acc (l := []) (by simp)
  | cons d ds ih =>
    obtain ⟨f, rfl⟩ : ∃ f, fuel = f + 1 := ⟨fuel - 1, by omega⟩
    have hstep : encodeDataLines (d :: ds) = cs "data: " ++ (d ++ '\n' :: encodeDataLines ds) := by
      simp [encodeDataLines, List.append_assoc]
    rw [hstep, parseLoop_data_line (hwf d (by simp)) f acc (encodeDataLines ds)]
    rw [ih f _ (by simpa using hfuel) (fun x hx => hwf x (by simp [hx]))]
    rfl

theorem foldl_appendData_ne {b : List Char} (ds : List (List Char)) (hb : b ≠ []) :
    ds.foldl appendData b = b ++ (ds.map fun d => '\n' :: d).flatten := by
  induction ds generalizing b with
  | nil => simp
  | cons d ds ih =>
    rw [List.foldl_cons, show appendData b d = b ++ '\n' :: d from by rw [appendData, if_pos hb]]
    rw [ih (by simp)]
    simp

theorem joinNL_cons (d : List Char) (ds : List (List Char)) :
    joinNL (d :: ds) = d ++ (ds.map fun x => '\n' :: x).flatten := by
  induction ds generalizing d with
  | nil => simp [joinNL]
  | cons e es ih =>
    rw [show joinNL (d :: e :: es) = d ++ '\n' :: joinNL (e :: es) from rfl, ih e]
    simp

theorem foldl_appendData_joinNL {d : List Char} (ds : List (List Char)) (hd : d ≠ []) :
    (d :: ds).foldl appendData [] = joinNL (d :: ds) := by
  have h0 : appendData [] d = d := by simp [appendData]
  rw [List.foldl_cons, h0, foldl_appendData_ne ds hd, joinNL_cons]

theorem encodeDataLines_length (ds : List (List Char)) :
    ds.length ≤ (encodeDataLines ds).length := by
  induction ds with
  | nil => simp [encodeDataLines]
  | cons d ds ih =>
    have h6 : (cs "data: ").length = 6 := rfl
    simp only [encodeDataLines, List.map_cons, List.flatten_cons, List.length_append,
      List.length_cons, List.length_nil] at ih ⊢
    omega

theorem parseNext_flush (ds : List (List Char)) (hne : ds ≠ [])
    (hwf : ∀ d ∈ ds, WfLine d) :
    parseNext ⟨encodeDataLines ds, false⟩ = (.ok ⟨[], joinNL ds, []⟩, ⟨[], true⟩) := by
  obtain ⟨d, ds', rfl⟩ : ∃ x xs, ds = x :: xs := by
    cases ds with
    | nil => exact absurd rfl hne
    | cons x xs => exact ⟨x, xs, rfl⟩
  have hd : d ≠ [] := (hwf d (by simp)).1
  have hjoin : (d :: ds').foldl appendData [] = joinNL (d :: ds') :=
    foldl_appendData_joinNL ds' hd
  have hjoin_ne : joinNL (d :: ds') ≠ [] := by
    rw [joinNL_cons]
    simp [hd]
  simp only [parseNext, Bool.false_eq_true, if_false]
  rw [parseLoop_lines (d :: ds') _ _ (by
    have := encodeDataLines_length (d :: ds')
    omega) hwf]
  rw [hjoin, if_pos hjoin_ne]

/-! ### Stream-level encoding and decoding (claim C1) -/

/-- The full JSON decode performed by `Read` (parse, then unmarshal a
`ChatCompletionResponse`). -/
def decodeChunk (d : List Char) : Option ChatCompletionResponse :=
  (parseJson d).bind decodeChatCompletionResponse

/-- The top-level error probe of `Read` finds nothing: either the payload is
not valid JSON (Go's probe unmarshal errors and is skipped) or the decoded
`errorCheck.Error` is nil. -/
def noTopErrorB (d : List Char) : Bool :=
  match parseJson d with
  | none => true
  | some v =>
    match decodeErrorCheck v with
    | some (some _) => false
    | _ => true

/-- A payload that `Read` turns into exactly one decoded chunk: well-formed
as an SSE `data:` value, not a keep-alive comment, not the `[DONE]` sentinel,
no top-level error object, and JSON-decodable as a response. -/
def WfChunkData (d : List Char) : Prop :=
  WfLine d ∧ hasPrefix d (cs ": ") = false ∧ d ≠ cs "[DONE]" ∧
  noTopErrorB d = true ∧ (decodeChunk d).isSome = true

instance (d : List Char) : Decidable (WfChunkData d) := by
  unfold WfChunkData
  infer_instance

/-- N payload events followed by the `data: [DONE]` terminator, each
terminated by the SSE blank line. -/
def encodeStream (ds : List (List Char)) : List Char :=
  (ds.map fun d => cs "data: " ++ (d ++ '\n' :: '\n' :: [])).flatten ++
    (cs "data: " ++ (cs "[DONE]" ++ '\n' :: '\n' :: []))

theorem streamReadAux_event {d : List Char} {c : ChatCompletionResponse} (h : WfChunkData d)
    (hc : decodeChunk d = some c) (fuel : Nat) (rest : List Char) :
    streamReadAux (fuel + 1) ⟨cs "data: " ++ (d ++ '\n' :: '\n' :: rest), false⟩ =
      (.ok c, ⟨rest, false⟩) := by
  obtain ⟨hwl, hcomment, hdone, hprobe, _⟩ := h
  obtain ⟨v, hv, hdec⟩ : ∃ v, parseJson d = some v ∧ decodeChatCompletionResponse v = some c := by
    rcases hpj : parseJson d with _ | v
    · rw [decodeChunk, hpj] at hc
      simp at hc
    · refine ⟨v, rfl, ?_⟩
      rw [decodeChunk, hpj] at hc
      simpa using hc
  have hprobe2 : decodeErrorCheck v = none ∨ decodeErrorCheck v = some none := by
    simp only [noTopErrorB, hv] at hprobe
    rcases hec : decodeErrorCheck v with _ | e
    · exact Or.inl rfl
    · rcases e with _ | e
      · exact Or.inr rfl
      · rw [hec] at hprobe
        simp at hprobe
  simp only [streamReadAux, parseNext_event hwl rest]
  simp only [hcomment, Bool.false_eq_true, if_false]
  rw [if_neg hdone, hv]
  rcases hprobe2 with hp | hp
  · simp only [hp, hdec]
  · simp only [hp, hdec]

theorem streamRead_event {d : List Char} {c : ChatCompletionResponse} (h : WfChunkData d)
    (hc : decodeChunk d = some c) (rest : List Char) :
    streamRead ⟨cs "data: " ++ (d ++ '\n' :: '\n' :: rest), false⟩ =
      (.ok c, ⟨rest, false⟩) := by
  rw [streamRead]
  exact streamReadAux_event h hc _ rest

theorem streamReadAux_done (fuel : Nat) (rest : List Char) :
    streamReadAux (fuel + 1) ⟨cs "data: " ++ (cs "[DONE]" ++ '\n' :: '\n' :: rest), false⟩ =
      (.error .eofErr, ⟨rest, false⟩) := by
  simp only [streamReadAux, parseNext_event (d := cs "[DONE]") (by decide) rest]
  simp only [if_true]
  rw [if_neg (by decide)]

theorem streamRead_done (rest : List Char) :
    streamRead ⟨cs "data: " ++ (cs "[DONE]" ++ '\n' :: '\n' :: rest), false⟩ =
      (.error .eofErr, ⟨rest, false⟩) := by
  rw [streamRead]
  exact streamReadAux_done _ rest

theorem encodeStream_length (ds : List (List Char)) :
    ds.length ≤ (encodeStream ds).length := by
  induction ds with
  | nil => simp [encodeStream]
  | cons d ds ih =>
    simp only [encodeStream, List.map_cons, List.flatten_cons, List.append_assoc,
      List.length_append, List.length_cons] at ih ⊢
    omega

theorem readAllAux_stream (ds : List (List Char)) (fuel : Nat)
    (hfuel : ds.length + 1 ≤ fuel) (hwf : ∀ d ∈ ds, WfChunkData d) :
    readAllAux fuel ⟨encodeStream ds, false⟩ = (ds.filterMap decodeChunk, .eofErr) := by
  induction ds generalizing fuel with
  | nil =>
    obtain ⟨f, rfl⟩ : ∃ f, fuel = f + 1 := ⟨fuel - 1, by omega⟩
    have h0 : encodeStream [] = cs "data: " ++ (cs "[DONE]" ++ '\n' :: '\n' :: []) := by
      simp [encodeStream]
    simp only [readAllAux, h0, streamRead_done]
    simp
  | cons d ds ih =>
    obtain ⟨f, rfl⟩ : ∃ f, fuel = f + 1 := ⟨fuel - 1, by omega⟩
    have hd := hwf d (by simp)
    obtain ⟨c, hc⟩ : ∃ c, decodeChunk d = some c :=
      Option.isSome_iff_exists.mp hd.2.2.2.2
    have hstep : encodeStream (d :: ds) =
        cs "data: " ++ (d ++ '\n' :: '\n' :: encodeStream ds) := by
      simp [encodeStream, List.append_assoc]
    simp only [readAllAux, hstep, streamRead_event hd hc]
    rw [ih f (by simpa using hfuel) (fun x hx => hwf x (by simp [hx]))]
    simp [List.filterMap_cons, hc]

theorem readAll_stream (ds : List (List Char)) (hwf : ∀ d ∈ ds, WfChunkData d) :
    readAll (encodeStream ds) = (ds.filterMap decodeChunk, .eofErr) ∧
      (ds.filterMap decodeChunk).length = ds.length := by
  constructor
  · rw [readAll, newSSEParser]
    exact readAllAux_stream ds _ (by have := encodeStream_length ds; omega) hwf
  · induction ds with
    | nil => simp
    | cons d ds ih =>
      have hd := hwf d (by simp)
      obtain ⟨c, hc⟩ : ∃ c, decodeChunk d = some c :=
        Option.isSome_iff_exists.mp hd.2.2.2.2
      simp only [List.filterMap_cons, hc, List.length_cons]
      rw [ih (fun x hx => hwf x (by simp [hx]))]

/-! ### Claims C1 and C2 -/

/-- The first payload of the spec's end-to-end example. -/
def payloadHi : List Char :=
  cs "\x7b\"choices\":[\x7b\"delta\":\x7b\"content\":\"Hi\"\x7d\x7d]\x7d"

/-- The second payload of the spec's end-to-end example (note: it places
`finish_reason` at the top level of the object, not inside the choice). -/
def payloadBang : List Char :=
  cs "\x7b\"choices\":[\x7b\"delta\":\x7b\"content\":\"!\"\x7d\x7d],\"finish_reason\":\"stop\"\x7d"

/-- The spec's end-to-end example byte sequence, exactly as written there. -/
def exampleC1 : List Char :=
  cs "data: \x7b\"choices\":[\x7b\"delta\":\x7b\"content\":\"Hi\"\x7d\x7d]\x7d\n\ndata: \x7b\"choices\":[\x7b\"delta\":\x7b\"content\":\"!\"\x7d\x7d],\"finish_reason\":\"stop\"\x7d\n\ndata: [DONE]\n\n"

theorem exampleC1_eq_encodeStream : exampleC1 = encodeStream [payloadHi, payloadBang] := by
  decide

/-- C1 (counterexample to the claim as stated): feeding the spec's example
byte sequence yields two chunks and end-of-stream, but the second chunk's
choice has an empty finish reason, not "stop": the example's top-level
`finish_reason` key does not correspond to any field of
`models.ChatCompletionResponse` (where `finish_reason` lives inside each
choice) and is ignored by `json.Unmarshal`. -/
theorem c1_counterexample :
    (readAll exampleC1).1.length = 2 ∧
    ((readAll exampleC1).1.getD 1 zeroChatCompletionResponse).Choices.map Choice.FinishReason
      = [[]] ∧
    ¬ ∃ ch ∈ ((readAll exampleC1).1.getD 1 zeroChatCompletionResponse).Choices,
        ch.FinishReason = cs "stop" := by
  refine ⟨rfl, rfl, ?_⟩
  decide

/-- C1 (amended): for every well-formed SSE byte sequence of N data events
followed by `data: [DONE]` — each payload nonempty, newline-free, trim-stable,
not a keep-alive comment, not the `[DONE]` literal, without a top-level error
object, and JSON-decodable — successive `Read()` calls yield exactly the N
decoded chunks in order and then end-of-stream (`io.EOF`), and the `[DONE]`
event is never surfaced as a chunk; feeding the spec's example byte sequence
yields a chunk with delta content "Hi", then a chunk with delta content "!"
whose finish reason is empty (the example's top-level `finish_reason: stop`
is ignored because the field belongs inside each choice), then
end-of-stream. -/
theorem c1_stream_reader (ds : List (List Char)) (hwf : ∀ d ∈ ds, WfChunkData d) :
    (readAll (encodeStream ds) = (ds.filterMap decodeChunk, .eofErr) ∧
      (ds.filterMap decodeChunk).length = ds.length) ∧
    ((readAll exampleC1).1.map (fun r => r.Choices.map fun ch =>
        (ch.Delta.map Message.Content, ch.FinishReason)) =
      [[(some (some (.jstr (cs "Hi"))), [])], [(some (some (.jstr (cs "!"))), [])]] ∧
      (readAll exampleC1).2 = .eofErr) := by
  refine ⟨readAll_stream ds hwf, ?_, rfl⟩
  rfl

/-- Witness for C1: the two example payloads are well-formed chunk data, and
instantiating the amended theorem at them also evaluates the spec-example
conclusions. -/
theorem c1_stream_reader_witness :
    (readAll (encodeStream [payloadHi, payloadBang]) =
        ([payloadHi, payloadBang].filterMap decodeChunk, .eofErr) ∧
      ([payloadHi, payloadBang].filterMap decodeChunk).length =
        ([payloadHi, payloadBang] : List (List Char)).length) ∧
    ((readAll exampleC1).1.map (fun r => r.Choices.map fun ch =>
        (ch.Delta.map Message.Content, ch.FinishReason)) =
      [[(some (some (.jstr (cs "Hi"))), [])], [(some (some (.jstr (cs "!"))), [])]] ∧
      (readAll exampleC1).2 = .eofErr) :=
  c1_stream_reader [payloadHi, payloadBang] (by decide)

/-- C2: if the SSE parser reaches end-of-stream with accumulated `data:`
lines and no terminating blank line, `ParseNext()` returns the accumulated
event (its data newline-joined) exactly once, closing the parser; on every
closed parser, `ParseNext()` returns the terminal `ErrStreamClosed` error and
leaves the state unchanged, so every subsequent call keeps returning it. -/
theorem c2_eof_flush (ds : List (List Char)) (hne : ds ≠ [])
    (hwf : ∀ d ∈ ds, WfLine d) :
    parseNext ⟨encodeDataLines ds, false⟩ = (.ok ⟨[], joinNL ds, []⟩, ⟨[], true⟩) ∧
    ∀ p : SSEParser, p.closed = true → parseNext p = (.error .streamClosed, p) :=
  ⟨parseNext_flush ds hne hwf, fun p hp => parseNext_closed p hp⟩

/-- Witness for C2 at a concrete two-line stream and the concrete closed
state the flush produces. -/
theorem c2_eof_flush_witness :
    parseNext ⟨encodeDataLines [cs "alpha", cs "beta"], false⟩ =
      (.ok ⟨[], joinNL [cs "alpha", cs "beta"], []⟩, ⟨[], true⟩) ∧
    parseNext ⟨[], true⟩ = (.error .streamClosed, ⟨[], true⟩) :=
  ⟨(c2_eof_flush [cs "alpha", cs "beta"] (by decide) (by decide)).1,
    (c2_eof_flush [cs "alpha", cs "beta"] (by decide) (by decide)).2 ⟨[], true⟩ rfl⟩

/-! ### The retry executor (`RetryClient` in `pkg/observability.go`)

The HTTP operation becomes an oracle `op : Nat → Except GoErr ρ` giving the
outcome of each invocation (numbered from 0), and the caller's context
becomes an oracle `cancel : Nat → Bool` telling whether `ctx.Done()` fires
during the backoff sleep before attempt `k`. -/

/-- A Go error as `RetryClient.isRetryable` classifies it: either an
`*errors.APIError` (carrying its `ErrorCode`) or any other error value. -/
inductive GoErr where
  | apiError (code : Int) (msg : List Char)
  | otherErr (msg : List Char)
deriving Repr, DecidableEq

/-- The fields of `pkg.RetryConfig` that `CreateChatCompletion` consults
(`MaxRetries` and the `RetryableErrors` code set; the delay fields feed only
`calculateDelay`, modelled separately). -/
structure RetryConfig where
  MaxRetries : Int
  RetryableErrors : Int → Bool

/-- Model of `RetryClient.isRetryable`: a type assertion to `*errors.APIError`
followed by a lookup in the `RetryableErrors` map. -/
def isRetryable (cfg : RetryConfig) : GoErr → Bool
  | .apiError code _ => cfg.RetryableErrors code
  | .otherErr _ => false

/-- The four ways `RetryClient.CreateChatCompletion` returns: a response,
`ctx.Err()` from a cancelled backoff sleep, a non-retryable error returned
unmodified, or the "max retries exceeded" wrapper around the last failure
(`none` only when the loop never ran, i.e. `MaxRetries < 0`). -/
inductive RetryOutcome (ρ : Type) where
  | ok (resp : ρ)
  | cancelled
  | failed (e : GoErr)
  | maxRetriesExceeded (last : Option GoErr)
deriving Repr

/-- The retry loop of `RetryClient.CreateChatCompletion`, with the remaining
iteration count as fuel (`attempt ≤ MaxRetries` fails exactly when the fuel
runs out).  Returns the outcome paired with the number of invocations of the
operation. -/
def retryFrom {ρ : Type} (cfg : RetryConfig) (op : Nat → Except GoErr ρ)
    (cancel : Nat → Bool) : Nat → Option GoErr → Nat → RetryOutcome ρ × Nat
  | _, lastErr, 0 => (.maxRetriesExceeded lastErr, 0)
  | attempt, _, fuel + 1 =>
    if 0 < attempt ∧ cancel attempt = true then (.cancelled, 0)
    else
      match op attempt with
      | .ok r => (.ok r, 1)
      | .error e =>
        if isRetryable cfg e then
          match retryFrom cfg op cancel (attempt + 1) (some e) fuel with
          | (out, n) => (out, n + 1)
        else (.failed e, 1)

/-- Model of `RetryClient.CreateChatCompletion`: run the loop from attempt 0 with
`MaxRetries + 1` iterations available (none when `MaxRetries < 0`, in which
case Go returns "max retries exceeded" wrapping a nil error). -/
def retryCreateChatCompletion {ρ : Type} (cfg : RetryConfig) (op : Nat → Except GoErr ρ)
    (cancel : Nat → Bool) : RetryOutcome ρ × Nat :=
  retryFrom cfg op cancel 0 none (cfg.MaxRetries + 1).toNat

/-- Result shape of `RetryClient.CreateChatCompletionStream`: the stream
pointer, the returned error message, and the number of streaming requests
performed. -/
structure RetryStreamOutcome (σ : Type) where
  stream : Option σ
  errMsg : Option (List Char)
  streamRequests : Nat

/-- Model of `RetryClient.CreateChatCompletionStream`: the body ignores its arguments
and immediately returns `fmt.Errorf("retry not supported for streaming")`
without any request or retry. -/
def retryCreateChatCompletionStream {Req σ : Type} (req : Req) : RetryStreamOutcome σ :=
  { stream := none, errMsg := some (cs "retry not supported for streaming"), streamRequests := 0 }

/-- The delay fields of `pkg.RetryConfig`, as exact rationals (Go uses
float64 and `time.Duration` nanoseconds). -/
structure RetryDelayConfig where
  InitialDelay : ℚ
  MaxDelay : ℚ
  BackoffFactor : ℚ
  JitterFactor : ℚ

/-- Model of `RetryClient.calculateDelay` before the final `time.Duration` cast:
exponential backoff, clamp to `MaxDelay`, then symmetric jitter using a
random `r ∈ [0,1)`.  Faithful for `attempt ≥ 1`, the only values the caller
passes (Go computes `math.Pow(backoff, float64(attempt-1))`). -/
def calculateDelay (cfg : RetryDelayConfig) (attempt : Nat) (r : ℚ) : ℚ :=
  let delay := cfg.InitialDelay * cfg.BackoffFactor ^ (attempt - 1)
  let delay2 := if delay > cfg.MaxDelay then cfg.MaxDelay else delay
  let jitter := delay2 * cfg.JitterFactor * (2 * r - 1)
  delay2 + jitter

/-- Go's float64-to-int64 conversion (truncation toward zero), applied by the
final `time.Duration(delay)` cast. -/
def ratTruncToInt (q : ℚ) : Int := if 0 ≤ q then q.floor else -((-q).floor)

/-- Model of `calculateDelay` including the `time.Duration` cast: whole nanoseconds. -/
def calculateDelayDuration (cfg : RetryDelayConfig) (attempt : Nat) (r : ℚ) : Int :=
  ratTruncToInt (calculateDelay cfg attempt r)

/-- The claim's formula for the nominal (pre-jitter) delay:
`min(InitialDelay × BackoffFactor^(attempt-1), MaxDelay)`. -/
def specNominalDelay (cfg : RetryDelayConfig) (attempt : Nat) : ℚ :=
  min (cfg.InitialDelay * cfg.BackoffFactor ^ (attempt - 1)) cfg.MaxDelay

/-! ### The circuit breaker (`pkg/observability.go`)

Time is integer nanoseconds; `time.Since(t)` at instant `now` is `now - t`;
the operation outcome is the oracle `opFails`. -/

/-- Model of `pkg.CircuitState`. -/
inductive CircuitState where
  | CircuitClosed
  | CircuitOpen
  | CircuitHalfOpen
deriving Repr, DecidableEq

/-- Model of `pkg.CircuitBreaker` (without the wrapped client, which the state
machine never reads). -/
structure CircuitBreaker where
  failureThreshold : Int
  resetTimeout : Int
  failures : Int
  lastFailure : Int
  state : CircuitState
deriving Repr, DecidableEq

/-- Model of `pkg.NewCircuitBreaker`: `failures` and `lastFailure` start at their Go
zero values. -/
def NewCircuitBreaker (failureThreshold resetTimeout : Int) : CircuitBreaker :=
  { failureThreshold := failureThreshold, resetTimeout := resetTimeout,
    failures := 0, lastFailure := 0, state := .CircuitClosed }

/-- Model of `CircuitBreaker.checkState` at instant `now`: in `CircuitOpen`, allow the
call (moving to `CircuitHalfOpen` and resetting `failures`) only when
`time.Since(lastFailure) > resetTimeout` — strictly greater; otherwise
reject with "circuit breaker is open".  Any other state allows the call. -/
def checkState (cb : CircuitBreaker) (now : Int) : Except (List Char) CircuitBreaker :=
  match cb.state with
  | .CircuitOpen =>
    if now - cb.lastFailure > cb.resetTimeout then
      .ok { cb with state := .CircuitHalfOpen, failures := 0 }
    else .error (cs "circuit breaker is open")
  | _ => .ok cb

/-- Model of `CircuitBreaker.recordResult` at instant `now`. -/
def recordResult (cb : CircuitBreaker) (failed : Bool) (now : Int) : CircuitBreaker :=
  if failed = false then
    { cb with
      state := if cb.state = .CircuitHalfOpen then .CircuitClosed else cb.state,
      failures := 0 }
  else
    let cb2 := { cb with failures := cb.failures + 1, lastFailure := now }
    if cb2.failures ≥ cb2.failureThreshold then { cb2 with state := .CircuitOpen } else cb2

/-- Whether a `CircuitBreaker.CreateChatCompletion` call was rejected by the
open breaker or actually invoked the operation (with the given outcome). -/
inductive CBCallResult where
  | rejected
  | invoked (failed : Bool)
deriving Repr, DecidableEq

/-- Model of `CircuitBreaker.CreateChatCompletion`: check the state; on rejection
return the error without touching the operation or the state; otherwise
invoke the operation and record its result. -/
def cbCall (cb : CircuitBreaker) (now : Int) (opFails : Bool) : CBCallResult × CircuitBreaker :=
  match checkState cb now with
  | .error _ => (.rejected, cb)
  | .ok cb2 => (.invoked opFails, recordResult cb2 opFails now)

/-! ### Claims C3, C4, C8, C9 (retry executor) -/

theorem retryFrom_count_le {ρ : Type} (cfg : RetryConfig) (op : Nat → Except GoErr ρ)
    (cancel : Nat → Bool) (attempt : Nat) (lastErr : Option GoErr) (fuel : Nat) :
    (retryFrom cfg op cancel attempt lastErr fuel).2 ≤ fuel := by
  induction fuel generalizing attempt lastErr with
  | zero => simp [retryFrom]
  | succ f ih =>
    simp only [retryFrom]
    split
    · simp
    · cases hop : op attempt with
      | ok r => simp
      | error e =>
        simp only []
        split
        · have h2 := ih (attempt + 1) (some e)
          simp only []
          omega
        · simp

theorem retryFrom_success {ρ : Type} (cfg : RetryConfig) (op : Nat → Except GoErr ρ)
    (cancel : Nat → Bool) (hnc : ∀ k, cancel k = false) (r : ρ) :
    ∀ (n attempt : Nat) (lastErr : Option GoErr),
      (∀ k, attempt ≤ k → k < attempt + n →
        ∃ e, op k = .error e ∧ isRetryable cfg e = true) →
      op (attempt + n) = .ok r →
      retryFrom cfg op cancel attempt lastErr (n + 1) = (.ok r, n + 1) := by
  intro n
  induction n with
  | zero =>
    intro attempt lastErr _ hok
    have hok2 : op attempt = .ok r := by simpa using hok
    simp only [retryFrom, hnc, Bool.false_eq_true, and_false, if_false]
    rw [hok2]
  | succ n ih =>
    intro attempt lastErr hfail hok
    obtain ⟨e, he, hret⟩ := hfail attempt (le_refl _) (by omega)
    have key : ∀ f, f = n + 1 →
        retryFrom cfg op cancel attempt lastErr (f + 1) = (.ok r, f + 1) := by
      intro f hf
      simp only [retryFrom, hnc, Bool.false_eq_true, and_false, if_false]
      rw [he]
      simp only [hret, if_true]
      rw [hf, ih (attempt + 1) (some e)
        (fun k hk1 hk2 => hfail k (by omega) (by omega))
        (by rw [show attempt + 1 + n = attempt + (n + 1) by omega]; exact hok)]
    exact key (n + 1) rfl

theorem retryFrom_exhausted {ρ : Type} (cfg : RetryConfig) (op : Nat → Except GoErr ρ)
    (cancel : Nat → Bool) (hnc : ∀ k, cancel k = false) :
    ∀ (n attempt : Nat) (lastErr : Option GoErr),
      (∀ k, attempt ≤ k → k ≤ attempt + n →
        ∃ e, op k = .error e ∧ isRetryable cfg e = true) →
      ∃ e, op (attempt + n) = .error e ∧
        retryFrom cfg op cancel attempt lastErr (n + 1) =
          (.maxRetriesExceeded (some e), n + 1) := by
  intro n
  induction n with
  | zero =>
    intro attempt lastErr hfail
    obtain ⟨e, he, hret⟩ := hfail attempt (le_refl _) (by omega)
    refine ⟨e, by simpa using he, ?_⟩
    simp only [retryFrom, hnc, Bool.false_eq_true, and_false, if_false]
    rw [he]
    simp only [hret, if_true, retryFrom]
  | succ n ih =>
    intro attempt lastErr hfail
    obtain ⟨e, he, hret⟩ := hfail attempt (le_refl _) (by omega)
    obtain ⟨e2, he2, hrec⟩ := ih (attempt + 1) (some e)
      (fun k hk1 hk2 => hfail k (by omega) (by omega))
    refine ⟨e2, by rw [show attempt + (n + 1) = attempt + 1 + n by omega]; exact he2, ?_⟩
    have key : ∀ f, f = n + 1 →
        retryFrom cfg op cancel attempt lastErr (f + 1) =
          (.maxRetriesExceeded (some e2), f + 1) := by
      intro f hf
      simp only [retryFrom, hnc, Bool.false_eq_true, and_false, if_false]
      rw [he]
      simp only [hret, if_true]
      rw [hf, hrec]
    exact key (n + 1) rfl

/-- C3: the retry loop invokes the operation at most `MaxRetries + 1` times;
when every attempt before the last fails with a retryable error and attempt
`MaxRetries + 1` succeeds (no cancellation), the operation is invoked exactly
`MaxRetries + 1` times and the success is returned; when all `MaxRetries + 1`
invocations fail with retryable errors, the result is the "max retries
exceeded" outcome wrapping the last failure, again after exactly
`MaxRetries + 1` invocations. -/
theorem c3_retry_attempts {ρ : Type} (cfg : RetryConfig) (op : Nat → Except GoErr ρ)
    (cancel : Nat → Bool) (m : Nat) (hm : cfg.MaxRetries = (m : Int))
    (hnc : ∀ k, cancel k = false) :
    (retryCreateChatCompletion cfg op cancel).2 ≤ m + 1 ∧
    (∀ r : ρ,
      (∀ k < m, ∃ e, op k = .error e ∧ isRetryable cfg e = true) →
      op m = .ok r →
      retryCreateChatCompletion cfg op cancel = (.ok r, m + 1)) ∧
    ((∀ k ≤ m, ∃ e, op k = .error e ∧ isRetryable cfg e = true) →
      ∃ e, op m = .error e ∧
        retryCreateChatCompletion cfg op cancel = (.maxRetriesExceeded (some e), m + 1)) := by
  have hfuel : (cfg.MaxRetries + 1).toNat = m + 1 := by rw [hm]; omega
  refine ⟨?_, ?_, ?_⟩
  · rw [retryCreateChatCompletion, hfuel]
    exact retryFrom_count_le cfg op cancel 0 none (m + 1)
  · intro r hfail hok
    rw [retryCreateChatCompletion, hfuel]
    exact retryFrom_success cfg op cancel hnc r m 0 none
      (fun k _ hk => hfail k (by omega)) (by simpa using hok)
  · intro hfail
    obtain ⟨e, he, hres⟩ := retryFrom_exhausted cfg op cancel hnc m 0 none
      (fun k _ hk => hfail k (by omega))
    exact ⟨e, by simpa using he, by rw [retryCreateChatCompletion, hfuel]; exact hres⟩

/-- Witness for C3: `MaxRetries = 3`, timeouts (code 408, retryable) on
attempts 1–3, success on attempt 4. -/
theorem c3_retry_attempts_witness :
    (retryCreateChatCompletion
        ⟨3, fun c => c == 408⟩
        (fun k => if k < 3 then .error (.apiError 408 (cs "timeout")) else .ok true)
        (fun _ => false)).2 ≤ 3 + 1 ∧
    (∀ r : Bool,
      (∀ k < 3, ∃ e,
        (if k < 3 then (.error (.apiError 408 (cs "timeout")) : Except GoErr Bool)
          else .ok true) = .error e ∧
        isRetryable ⟨3, fun c => c == 408⟩ e = true) →
      (if 3 < 3 then (.error (.apiError 408 (cs "timeout")) : Except GoErr Bool)
        else .ok true) = .ok r →
      retryCreateChatCompletion ⟨3, fun c => c == 408⟩
        (fun k => if k < 3 then .error (.apiError 408 (cs "timeout")) else .ok true)
        (fun _ => false) = (.ok r, 3 + 1)) ∧
    ((∀ k ≤ 3, ∃ e,
        (if k < 3 then (.error (.apiError 408 (cs "timeout")) : Except GoErr Bool)
          else .ok true) = .error e ∧
        isRetryable ⟨3, fun c => c == 408⟩ e = true) →
      ∃ e,
        (if 3 < 3 then (.error (.apiError 408 (cs "timeout")) : Except GoErr Bool)
          else .ok true) = .error e ∧
        retryCreateChatCompletion ⟨3, fun c => c == 408⟩
          (fun k => if k < 3 then .error (.apiError 408 (cs "timeout")) else .ok true)
          (fun _ => false) = (.maxRetriesExceeded (some e), 3 + 1)) :=
  c3_retry_attempts ⟨3, fun c => c == 408⟩
    (fun k => if k < 3 then .error (.apiError 408 (cs "timeout")) else .ok true)
    (fun _ => false) 3 rfl (fun _ => rfl)

/-- C4: when the first invocation fails with an error that is not a
classified API error or whose code is not in `RetryableErrors`, the error is
returned unmodified after exactly one invocation, for every cancellation
oracle (no backoff sleep is consulted and no further attempt happens). -/
theorem c4_nonretryable {ρ : Type} (cfg : RetryConfig) (op : Nat → Except GoErr ρ)
    (e : GoErr) (h0 : 0 ≤ cfg.MaxRetries) (he : op 0 = .error e)
    (hnr : isRetryable cfg e = false) :
    ∀ cancel : Nat → Bool, retryCreateChatCompletion cfg op cancel = (.failed e, 1) := by
  intro cancel
  obtain ⟨f, hf⟩ : ∃ f, (cfg.MaxRetries + 1).toNat = f + 1 :=
    ⟨cfg.MaxRetries.toNat, by omega⟩
  rw [retryCreateChatCompletion, hf]
  simp only [retryFrom, Nat.lt_irrefl, false_and, if_false]
  rw [he]
  simp only [hnr, Bool.false_eq_true, if_false]

/-- Witness for C4: a non-API error on the first attempt with `MaxRetries=3`
and two different cancellation oracles. -/
theorem c4_nonretryable_witness :
    retryCreateChatCompletion (ρ := Bool) ⟨3, fun c => c == 408⟩
        (fun _ => .error (.otherErr (cs "dial tcp: connection refused"))) (fun _ => false) =
      (.failed (.otherErr (cs "dial tcp: connection refused")), 1) ∧
    retryCreateChatCompletion (ρ := Bool) ⟨3, fun c => c == 408⟩
        (fun _ => .error (.otherErr (cs "dial tcp: connection refused"))) (fun _ => true) =
      (.failed (.otherErr (cs "dial tcp: connection refused")), 1) :=
  ⟨c4_nonretryable ⟨3, fun c => c == 408⟩
      (fun _ => .error (.otherErr (cs "dial tcp: connection refused")))
      (.otherErr (cs "dial tcp: connection refused")) (by decide) rfl rfl (fun _ => false),
    c4_nonretryable ⟨3, fun c => c == 408⟩
      (fun _ => .error (.otherErr (cs "dial tcp: connection refused")))
      (.otherErr (cs "dial tcp: connection refused")) (by decide) rfl rfl (fun _ => true)⟩

/-- C9: `RetryClient.CreateChatCompletionStream` always fails immediately
with "retry not supported for streaming", returns no stream, and performs
zero streaming requests, for every request. -/
theorem c9_stream_no_retry {Req σ : Type} (req : Req) :
    retryCreateChatCompletionStream (σ := σ) req =
      { stream := none, errMsg := some (cs "retry not supported for streaming"),
        streamRequests := 0 } := rfl

/-- C8: for `attempt ≥ 1` the computed delay equals the clamped nominal
delay `min(InitialDelay × BackoffFactor^(attempt-1), MaxDelay)` plus the
symmetric jitter `nominal × JitterFactor × (2r − 1)`; the clamp happens
before the jitter, so with a positive jitter factor and positive nominal
delay the result is strictly below the nominal delay for `r < 1/2` and
strictly above it for `r > 1/2`. -/
theorem c8_calculate_delay (cfg : RetryDelayConfig) (attempt : Nat) (r : ℚ)
    (h : 1 ≤ attempt) :
    calculateDelay cfg attempt r =
      specNominalDelay cfg attempt +
        specNominalDelay cfg attempt * cfg.JitterFactor * (2 * r - 1) ∧
    (0 < cfg.JitterFactor → 0 < specNominalDelay cfg attempt →
      (r < 1 / 2 → calculateDelay cfg attempt r < specNominalDelay cfg attempt) ∧
      (1 / 2 < r → specNominalDelay cfg attempt < calculateDelay cfg attempt r)) := by
  have hmin : calculateDelay cfg attempt r =
      specNominalDelay cfg attempt +
        specNominalDelay cfg attempt * cfg.JitterFactor * (2 * r - 1) := by
    rw [calculateDelay, specNominalDelay]
    rcases le_or_lt (cfg.InitialDelay * cfg.BackoffFactor ^ (attempt - 1)) cfg.MaxDelay with
      hle | hlt
    · rw [if_neg (not_lt.mpr hle), min_eq_left hle]
    · rw [if_pos hlt, min_eq_right hlt.le]
  refine ⟨hmin, fun hj hpos => ⟨fun hr => ?_, fun hr => ?_⟩⟩
  · rw [hmin]
    have hneg : specNominalDelay cfg attempt * cfg.JitterFactor * (2 * r - 1) < 0 :=
      mul_neg_of_pos_of_neg (mul_pos hpos hj) (by linarith)
    linarith
  · rw [hmin]
    have hpos2 : 0 < specNominalDelay cfg attempt * cfg.JitterFactor * (2 * r - 1) :=
      mul_pos (mul_pos hpos hj) (by linarith)
    linarith

/-- Witness for C8 at the default config (1s initial delay, 30s max, factor
2, jitter 0.1, in nanoseconds) with `attempt = 1` and `r = 1/4`. -/
theorem c8_calculate_delay_witness :
    calculateDelay ⟨1000000000, 30000000000, 2, 1 / 10⟩ 1 (1 / 4) =
      specNominalDelay ⟨1000000000, 30000000000, 2, 1 / 10⟩ 1 +
        specNominalDelay ⟨1000000000, 30000000000, 2, 1 / 10⟩ 1 * (1 / 10) * (2 * (1 / 4) - 1) ∧
    (0 < (1 / 10 : ℚ) → 0 < specNominalDelay ⟨1000000000, 30000000000, 2, 1 / 10⟩ 1 →
      ((1 / 4 : ℚ) < 1 / 2 →
        calculateDelay ⟨1000000000, 30000000000, 2, 1 / 10⟩ 1 (1 / 4) <
          specNominalDelay ⟨1000000000, 30000000000, 2, 1 / 10⟩ 1) ∧
      ((1 / 2 : ℚ) < 1 / 4 →
        specNominalDelay ⟨1000000000, 30000000000, 2, 1 / 10⟩ 1 <
          calculateDelay ⟨1000000000, 30000000000, 2, 1 / 10⟩ 1 (1 / 4))) :=
  c8_calculate_delay ⟨1000000000, 30000000000, 2, 1 / 10⟩ 1 (1 / 4) (le_refl 1)

/-! ### Claims C5 and C10 (circuit breaker) -/

/-- An open breaker whose reset timeout has elapsed exactly (not strictly):
`lastFailure = 0`, `resetTimeout = 10`, observed at `now = 10`. -/
def cbBoundary : CircuitBreaker :=
  { failureThreshold := 2, resetTimeout := 10, failures := 2, lastFailure := 0,
    state := .CircuitOpen }

/-- C5 (counterexample to the claim as stated): at the boundary instant where
`now - lastFailureTime = resetTimeout` (so `now - lastFailureTime ≥
resetTimeout` holds), the code rejects the call with "circuit breaker is
open" instead of transitioning to half-open and letting it through, because
`checkState` uses the strict comparison `time.Since(lastFailure) >
resetTimeout`. -/
theorem c5_counterexample :
    (10 : Int) - cbBoundary.lastFailure ≥ cbBoundary.resetTimeout ∧
    checkState cbBoundary 10 = .error (cs "circuit breaker is open") ∧
    cbCall cbBoundary 10 false = (.rejected, cbBoundary) := by
  refine ⟨by decide, rfl, rfl⟩

/-- C5 (amended): the breaker follows the claimed state machine with the
boundary tightened to the strict inequality the code uses: a failure recorded
in `Closed` opens the circuit exactly when the incremented count reaches the
threshold; in `Open`, a call at `now` with `now - lastFailureTime >
resetTimeout` (strictly) transitions to `HalfOpen`, resets `failures` to 0,
and is allowed through, while a call with `now - lastFailureTime ≤
resetTimeout` is rejected with "circuit breaker is open" without invoking the
operation and without changing the state; a success in `HalfOpen` closes the
circuit; every success resets `failures` to 0; every failure increments
`failures` and records `lastFailure = now`. -/
theorem c5_state_machine (cb : CircuitBreaker) (now : Int) :
    (cb.state = .CircuitClosed →
      (recordResult cb true now).state =
        (if cb.failures + 1 ≥ cb.failureThreshold then .CircuitOpen else .CircuitClosed)) ∧
    (cb.state = .CircuitOpen → now - cb.lastFailure > cb.resetTimeout →
      checkState cb now = .ok { cb with state := .CircuitHalfOpen, failures := 0 } ∧
      ∀ f, cbCall cb now f =
        (.invoked f, recordResult { cb with state := .CircuitHalfOpen, failures := 0 } f now)) ∧
    (cb.state = .CircuitOpen → now - cb.lastFailure ≤ cb.resetTimeout →
      checkState cb now = .error (cs "circuit breaker is open") ∧
      ∀ f, cbCall cb now f = (.rejected, cb)) ∧
    (cb.state = .CircuitHalfOpen → (recordResult cb false now).state = .CircuitClosed) ∧
    (recordResult cb false now).failures = 0 ∧
    (recordResult cb true now).failures = cb.failures + 1 ∧
    (recordResult cb true now).lastFailure = now := by
  refine ⟨?_, ?_, ?_, ?_, ?_, ?_, ?_⟩
  · intro hs
    rw [recordResult]
    simp only [Bool.true_eq_false, if_false, hs]
    split
    · rfl
    · rfl
  · intro hs ht
    have hcs : checkState cb now = .ok { cb with state := .CircuitHalfOpen, failures := 0 } := by
      rw [checkState, hs]
      simp only [if_pos ht]
    exact ⟨hcs, fun f => by rw [cbCall, hcs]⟩
  · intro hs ht
    have hcs : checkState cb now = .error (cs "circuit breaker is open") := by
      rw [checkState, hs]
      simp only [if_neg (not_lt.mpr ht)]
    exact ⟨hcs, fun f => by rw [cbCall, hcs]⟩
  · intro hs
    rw [recordResult]
    simp only [Bool.true_eq_false, hs, if_true]
  · rw [recordResult]
    simp
  · rw [recordResult]
    simp only [Bool.true_eq_false, if_false]
    split <;> simp
  · rw [recordResult]
    simp only [Bool.true_eq_false, if_false]
    split <;> simp

/-- Witness for C5: evaluates the amended state machine on concrete breakers
covering each branch: a closed breaker one failure from the threshold, an
open breaker strictly past its reset timeout, the boundary breaker at an
elapsed-but-not-exceeded timeout, and a half-open breaker. -/
theorem c5_state_machine_witness :
    ((recordResult { cbBoundary with state := .CircuitClosed, failures := 1 } true 5).state =
      (if (1 : Int) + 1 ≥ 2 then CircuitState.CircuitOpen else .CircuitClosed)) ∧
    (checkState cbBoundary 11 =
      .ok { cbBoundary with state := .CircuitHalfOpen, failures := 0 } ∧
      cbCall cbBoundary 11 false =
        (.invoked false,
          recordResult { cbBoundary with state := .CircuitHalfOpen, failures := 0 } false 11)) ∧
    (checkState cbBoundary 10 = .error (cs "circuit breaker is open") ∧
      cbCall cbBoundary 10 true = (.rejected, cbBoundary)) ∧
    ((recordResult { cbBoundary with state := .CircuitHalfOpen } false 12).state =
      .CircuitClosed) := by
  refine ⟨?_, ⟨?_, ?_⟩, ⟨?_, ?_⟩, ?_⟩
  · exact (c5_state_machine { cbBoundary with state := .CircuitClosed, failures := 1 } 5).1 rfl
  · exact ((c5_state_machine cbBoundary 11).2.1 rfl (by decide)).1
  · exact ((c5_state_machine cbBoundary 11).2.1 rfl (by decide)).2 false
  · exact ((c5_state_machine cbBoundary 10).2.2.1 rfl (by decide)).1
  · exact ((c5_state_machine cbBoundary 10).2.2.1 rfl (by decide)).2 true
  · exact (c5_state_machine { cbBoundary with state := .CircuitHalfOpen } 12).2.2.2.1 rfl

/-- C10: a freshly constructed breaker starts `Closed` with zero failures,
its first call always passes `checkState` and invokes the operation —
never "circuit breaker is open" — for every `failureThreshold` (including 0
and negative values) and `resetTimeout`, because `checkState` only rejects in
the `Open` state, which a fresh breaker is not in. -/
theorem c10_fresh_breaker (ft rt now : Int) (opFails : Bool) :
    (NewCircuitBreaker ft rt).state = .CircuitClosed ∧
    (NewCircuitBreaker ft rt).failures = 0 ∧
    checkState (NewCircuitBreaker ft rt) now = .ok (NewCircuitBreaker ft rt) ∧
    (cbCall (NewCircuitBreaker ft rt) now opFails).1 = .invoked opFails :=
  ⟨rfl, rfl, rfl, rfl⟩

/-! ### The concurrent dispatcher (`pkg/openrouter/concurrent.go`)

Scheduling nondeterminism is explicit: each worker's interaction with the
context and the client is an oracle indexed by the request position, and the
order in which workers complete (and therefore write their slot or emit into
the fan-in channel) is a further parameter.  The theorems hold for every
value of these parameters, which is exactly the "independent of completion
order" guarantee. -/

/-- Model of `openrouter.ChatCompletionResult`. -/
structure ChatCompletionResult where
  Response : Option ChatCompletionResponse
  Error : Option GoErr
  Index : Nat
deriving Repr

/-- Go zero value of `ChatCompletionResult` (a slot never written, which the
theorems show cannot survive). -/
def zeroChatCompletionResult : ChatCompletionResult := ⟨none, none, 0⟩

/-- What happens to one worker of `CreateChatCompletionsConcurrent`: either
`ctx.Done()` fires while it waits for a semaphore slot (with the context's
error), or it runs the single-shot call to completion with some
response/error pair. -/
inductive WorkerOutcome where
  | cancelledWaiting (e : GoErr)
  | completed (resp : Option ChatCompletionResponse) (err : Option GoErr)

/-- The `results[index] = ChatCompletionResult{...}` value worker `index`
writes, per branch of the worker body. -/
def workerResult (index : Nat) : WorkerOutcome → ChatCompletionResult
  | .cancelledWaiting e => { Response := none, Error := some e, Index := index }
  | .completed r e => { Response := r, Error := e, Index := index }

/-- Apply the workers' slot writes in completion order. -/
def applyWrites (init : List ChatCompletionResult)
    (ws : List (Nat × ChatCompletionResult)) : List ChatCompletionResult :=
  ws.foldl (fun acc w => acc.set w.1 w.2) init

/-- Model of `ConcurrentClient.CreateChatCompletionsConcurrent` on `K` requests:
`results := make([]ChatCompletionResult, K)`, then every worker writes its
own slot, in completion order `order`; `wg.Wait()` returns the slice. -/
def createChatCompletionsConcurrent (K : Nat) (outcome : Nat → WorkerOutcome)
    (order : List Nat) : List ChatCompletionResult :=
  applyWrites (List.replicate K zeroChatCompletionResult)
    (order.map fun i => (i, workerResult i (outcome i)))

theorem applyWrites_length (init : List ChatCompletionResult)
    (ws : List (Nat × ChatCompletionResult)) :
    (applyWrites init ws).length = init.length := by
  induction ws generalizing init with
  | nil => rfl
  | cons w ws ih =>
    rw [applyWrites, List.foldl_cons]
    rw [show List.foldl (fun acc w => acc.set w.1 w.2) (init.set w.1 w.2) ws =
      applyWrites (init.set w.1 w.2) ws from rfl, ih]
    exact List.length_set ..

theorem applyWrites_not_written (init : List ChatCompletionResult)
    (ws : List (Nat × ChatCompletionResult)) (i : Nat) (h : i ∉ ws.map Prod.fst) :
    (applyWrites init ws)[i]? = init[i]? := by
  induction ws generalizing init with
  | nil => rfl
  | cons w ws ih =>
    simp only [List.map_cons, List.mem_cons, not_or] at h
    rw [applyWrites, List.foldl_cons]
    rw [show List.foldl (fun acc w => acc.set w.1 w.2) (init.set w.1 w.2) ws =
      applyWrites (init.set w.1 w.2) ws from rfl]
    rw [ih _ h.2, List.getElem?_set_ne (fun hne => h.1 hne.symm)]

theorem applyWrites_written (f : Nat → ChatCompletionResult)
    (init : List ChatCompletionResult) (ws : List (Nat × ChatCompletionResult)) (i : Nat)
    (hf : ∀ p ∈ ws, p.2 = f p.1) (hmem : i ∈ ws.map Prod.fst) (hlen : i < init.length) :
    (applyWrites init ws)[i]? = some (f i) := by
  induction ws generalizing init with
  | nil => simp at hmem
  | cons w ws ih =>
    rw [applyWrites, List.foldl_cons]
    rw [show List.foldl (fun acc w => acc.set w.1 w.2) (init.set w.1 w.2) ws =
      applyWrites (init.set w.1 w.2) ws from rfl]
    by_cases hi : i ∈ ws.map Prod.fst
    · exact ih (init.set w.1 w.2) (fun p hp => hf p (by simp [hp]))
        hi (by rw [List.length_set]; exact hlen)
    · have hw : i = w.1 := by
        simp only [List.map_cons, List.mem_cons] at hmem
        tauto
      rw [applyWrites_not_written _ _ _ hi, hw, List.getElem?_set_eq_of_lt]
      · rw [hf w (by simp)]
      · exact hw ▸ hlen

/-- C6: for `K` requests and any per-worker outcomes, the result slice has
length `K`; slot `i` holds exactly worker `i`'s result carrying `Index = i`
(in particular, if cancellation fired while worker `i` waited for its
semaphore slot, slot `i` is the cancellation error tagged `i`); and the
slice is identical for every completion order. -/
theorem c6_concurrent_dispatch (K : Nat) (outcome : Nat → WorkerOutcome) (order : List Nat)
    (hperm : order.Perm (List.range K)) :
    (createChatCompletionsConcurrent K outcome order).length = K ∧
    (∀ i < K, (createChatCompletionsConcurrent K outcome order)[i]? =
      some (workerResult i (outcome i))) ∧
    (∀ i < K, ∀ res, (createChatCompletionsConcurrent K outcome order)[i]? = some res →
      res.Index = i) ∧
    (∀ i < K, ∀ e, outcome i = .cancelledWaiting e →
      (createChatCompletionsConcurrent K outcome order)[i]? =
        some { Response := none, Error := some e, Index := i }) ∧
    (∀ order2, order2.Perm (List.range K) →
      createChatCompletionsConcurrent K outcome order =
        createChatCompletionsConcurrent K outcome order2) := by
  have hlen : ∀ order3 : List Nat,
      (createChatCompletionsConcurrent K outcome order3).length = K := by
    intro order3
    rw [createChatCompletionsConcurrent, applyWrites_length, List.length_replicate]
  have hslot : ∀ order3 : List Nat, order3.Perm (List.range K) →
      ∀ i < K, (createChatCompletionsConcurrent K outcome order3)[i]? =
        some (workerResult i (outcome i)) := by
    intro order3 hp i hi
    rw [createChatCompletionsConcurrent]
    refine applyWrites_written (fun j => workerResult j (outcome j)) _ _ i ?_ ?_ ?_
    · intro p hp2
      simp only [List.mem_map] at hp2
      obtain ⟨j, _, rfl⟩ := hp2
      rfl
    · rw [List.map_map]
      simpa using (hp.mem_iff.mpr (List.mem_range.mpr hi))
    · rw [List.length_replicate]
      exact hi
  refine ⟨hlen order, hslot order hperm, ?_, ?_, ?_⟩
  · intro i hi res hres
    rw [hslot order hperm i hi] at hres
    cases hres
    cases outcome i <;> rfl
  · intro i hi e he
    rw [hslot order hperm i hi, he]
    rfl
  · intro order2 hperm2
    apply List.ext_getElem?
    intro i
    rcases Nat.lt_or_ge i K with hi | hi
    · rw [hslot order hperm i hi, hslot order2 hperm2 i hi]
    · rw [List.getElem?_eq_none, List.getElem?_eq_none]
      · rw [hlen order2]; exact hi
      · rw [hlen order]; exact hi

/-- Witness for C6: two requests, worker 0 completing with an API error and
worker 1 cancelled while waiting, with the workers finishing in reversed
order. -/
theorem c6_concurrent_dispatch_witness :
    (createChatCompletionsConcurrent 2
        (fun i => if i = 0 then .completed none (some (.apiError 429 (cs "rate limited")))
          else .cancelledWaiting (.otherErr (cs "context canceled")))
        [1, 0]).length = 2 ∧
    (∀ i < 2, (createChatCompletionsConcurrent 2
        (fun i => if i = 0 then .completed none (some (.apiError 429 (cs "rate limited")))
          else .cancelledWaiting (.otherErr (cs "context canceled")))
        [1, 0])[i]? =
      some (workerResult i
        ((fun i => if i = 0 then
            WorkerOutcome.completed none (some (.apiError 429 (cs "rate limited")))
          else .cancelledWaiting (.otherErr (cs "context canceled"))) i))) ∧
    (∀ i < 2, ∀ res, (createChatCompletionsConcurrent 2
        (fun i => if i = 0 then .completed none (some (.apiError 429 (cs "rate limited")))
          else .cancelledWaiting (.otherErr (cs "context canceled")))
        [1, 0])[i]? = some res → res.Index = i) ∧
    (∀ i < 2, ∀ e, (fun i => if i = 0 then
          WorkerOutcome.completed none (some (.apiError 429 (cs "rate limited")))
        else .cancelledWaiting (.otherErr (cs "context canceled"))) i = .cancelledWaiting e →
      (createChatCompletionsConcurrent 2
        (fun i => if i = 0 then .completed none (some (.apiError 429 (cs "rate limited")))
          else .cancelledWaiting (.otherErr (cs "context canceled")))
        [1, 0])[i]? = some { Response := none, Error := some e, Index := i }) ∧
    (∀ order2, order2.Perm (List.range 2) →
      createChatCompletionsConcurrent 2
        (fun i => if i = 0 then .completed none (some (.apiError 429 (cs "rate limited")))
          else .cancelledWaiting (.otherErr (cs "context canceled")))
        [1, 0] =
      createChatCompletionsConcurrent 2
        (fun i => if i = 0 then .completed none (some (.apiError 429 (cs "rate limited")))
          else .cancelledWaiting (.otherErr (cs "context canceled")))
        order2) :=
  c6_concurrent_dispatch 2
    (fun i => if i = 0 then .completed none (some (.apiError 429 (cs "rate limited")))
      else .cancelledWaiting (.otherErr (cs "context canceled")))
    [1, 0] (by decide)

/-! ### Claim C7: the streaming fan-in dispatcher -/

/-- Model of `openrouter.StreamingResult` (the `Error` is kept as the Go error's
message string, which is also what the worker compares against "EOF"). -/
structure StreamingResult where
  Stream : Option ChatCompletionResponse
  Error : Option (List Char)
  Index : Nat
  Final : Bool
deriving Repr

/-- What happens to one worker of `CreateChatCompletionsStreamConcurrent`:
cancelled while acquiring the semaphore, a failed `CreateChatCompletionStream`
call, or an obtained stream whose SSE bytes the worker then reads to
exhaustion. -/
inductive StreamWorkerOutcome where
  | cancelledWaiting (e : List Char)
  | createFailed (e : List Char)
  | gotStream (input : List Char)

/-- The exact sequence worker `index` sends into the fan-in channel: one
final error result on cancellation or stream-creation failure; otherwise one
non-final result per chunk `Read` yields, then one final result — a bare
success if the loop's error satisfies `err.Error() == "EOF"`, an error result
otherwise. -/
def workerEmissions (index : Nat) : StreamWorkerOutcome → List StreamingResult
  | .cancelledWaiting e => [{ Stream := none, Error := some e, Index := index, Final := true }]
  | .createFailed e => [{ Stream := none, Error := some e, Index := index, Final := true }]
  | .gotStream input =>
    ((readAll input).1.map fun c =>
      { Stream := some c, Error := none, Index := index, Final := false }) ++
      [if readErrMessage (readAll input).2 = cs "EOF" then
        { Stream := none, Error := none, Index := index, Final := true }
      else
        { Stream := none, Error := some (readErrMessage (readAll input).2), Index := index,
          Final := true }]

/-- The per-worker pending emission lists of the stream dispatcher on `K`
requests. -/
def streamDispatchSources (K : Nat) (outcome : Nat → StreamWorkerOutcome) :
    List (List StreamingResult) :=
  (List.range K).map fun i => workerEmissions i (outcome i)

/-- Model of `out` is a possible content of the fan-in channel for pending per-worker
queues `ls`: at each step some worker whose queue is nonempty sends its head,
and the channel closes (`[]`) only once every queue is empty — the
`close(resultChan)` after `wg.Wait()`. -/
inductive FanIn : List (List StreamingResult) → List StreamingResult → Prop where
  | done (ls : List (List StreamingResult)) (h : ∀ l ∈ ls, l = []) : FanIn ls []
  | step (ls : List (List StreamingResult)) (j : Nat) (x : StreamingResult)
      (tl out : List StreamingResult) (hj : ls[j]? = some (x :: tl))
      (hrest : FanIn (ls.set j tl) out) : FanIn ls (x :: out)

theorem fanIn_filter {ls : List (List StreamingResult)} {out : List StreamingResult}
    (hfan : FanIn ls out)
    (htag : ∀ (j : Nat) (l : List StreamingResult), ls[j]? = some l → ∀ e ∈ l, e.Index = j) :
    ∀ (j : Nat) (l : List StreamingResult),
      ls[j]? = some l → out.filter (fun e => e.Index == j) = l := by
  induction hfan with
  | done ls h =>
    intro j l hj
    have : l ∈ ls := List.getElem?_mem hj
    rw [h l this, List.filter_nil]
  | step ls j0 x tl out hj0 hrest ih =>
    have hx : x.Index = j0 := htag j0 (x :: tl) hj0 x (by simp)
    have htag2 : ∀ (j : Nat) (l : List StreamingResult),
        (ls.set j0 tl)[j]? = some l → ∀ e ∈ l, e.Index = j := by
      intro j l hj e he
      by_cases hjj : j = j0
      · subst hjj
        have hlt : j < ls.length := by
          by_contra hge
          rw [List.getElem?_eq_none (by rw [List.length_set] at *; omega)] at hj
          exact Option.noConfusion hj
        rw [List.getElem?_set_eq_of_lt _ hlt] at hj
        cases hj
        exact htag j (x :: tl) hj0 e (by simp [he])
      · rw [List.getElem?_set_ne (fun hne => hjj hne.symm)] at hj
        exact htag j l hj e he
    intro j l hj
    by_cases hjj : j = j0
    · subst hjj
      have hlt : j < ls.length := by
        by_contra hge
        rw [List.getElem?_eq_none (by omega)] at hj0
        exact Option.noConfusion hj0
      rw [hj0] at hj
      cases hj
      rw [List.filter_cons, if_pos (by simp [hx])]
      rw [ih htag2 j tl (by rw [List.getElem?_set_eq_of_lt _ hlt])]
    · rw [List.filter_cons, if_neg (by simp only [hx, beq_iff_eq]; exact fun h => hjj h.symm)]
      refine ih htag2 j l ?_
      rw [List.getElem?_set_ne (fun hne => hjj hne.symm)]
      exact hj

theorem workerEmissions_shape (index : Nat) (o : StreamWorkerOutcome) :
    ∃ pre fin, workerEmissions index o = pre ++ [fin] ∧
      (∀ e ∈ pre, e.Index = index ∧ e.Final = false) ∧
      fin.Index = index ∧ fin.Final = true := by
  cases o with
  | cancelledWaiting e => exact ⟨[], _, rfl, by simp, rfl, rfl⟩
  | createFailed e => exact ⟨[], _, rfl, by simp, rfl, rfl⟩
  | gotStream input =>
    refine ⟨(readAll input).1.map fun c =>
      { Stream := some c, Error := none, Index := index, Final := false }, _, rfl, ?_, ?_, ?_⟩
    · intro e he
      simp only [List.mem_map] at he
      obtain ⟨c, _, rfl⟩ := he
      exact ⟨rfl, rfl⟩
    · split <;> rfl
    · split <;> rfl

theorem workerEmissions_index (index : Nat) (o : StreamWorkerOutcome) :
    ∀ e ∈ workerEmissions index o, e.Index = index := by
  obtain ⟨pre, fin, heq, hpre, hfin, _⟩ := workerEmissions_shape index o
  rw [heq]
  intro e he
  rcases List.mem_append.mp he with h | h
  · exact (hpre e h).1
  · rw [List.mem_singleton.mp h, hfin]

/-- C7: for every completion of the stream dispatcher on `K` requests (every
fan-in interleaving of the workers' sends, with the channel closing only
after all finals), the full channel content restricted to index `j` is
exactly worker `j`'s emission sequence, in its order: zero or more
`Final = false` results followed by exactly one `Final = true` result; in
particular each index's final result is on the channel before it closes, and
the per-index count of final results is one. -/
theorem c7_stream_fanin (K : Nat) (outcome : Nat → StreamWorkerOutcome)
    (out : List StreamingResult) (hfan : FanIn (streamDispatchSources K outcome) out) :
    ∀ j < K,
      out.filter (fun e => e.Index == j) = workerEmissions j (outcome j) ∧
      (∃ pre fin, out.filter (fun e => e.Index == j) = pre ++ [fin] ∧
        (∀ e ∈ pre, e.Final = false) ∧ fin.Final = true ∧ fin.Index = j) ∧
      (out.filter (fun e => e.Index == j)).countP (fun e => e.Final) = 1 := by
  have htag : ∀ (j : Nat) (l : List StreamingResult),
      (streamDispatchSources K outcome)[j]? = some l → ∀ e ∈ l, e.Index = j := by
    intro j l hj e he
    rw [streamDispatchSources, List.getElem?_map] at hj
    rcases hr : (List.range K)[j]? with _ | i
    · rw [hr] at hj
      exact Option.noConfusion hj
    · rw [hr] at hj
      cases hj
      have hij : i = j := by
        have := List.getElem?_range (by
          by_contra hge
          rw [List.getElem?_eq_none (by simpa using hge)] at hr
          exact Option.noConfusion hr : j < K)
        rw [this] at hr
        exact (Option.some.inj hr).symm
      subst hij
      exact workerEmissions_index i (outcome i) e (by simpa using he)
  intro j hj
  have hsrc : (streamDispatchSources K outcome)[j]? = some (workerEmissions j (outcome j)) := by
    rw [streamDispatchSources, List.getElem?_map, List.getElem?_range hj]
    rfl
  have hfilter := fanIn_filter hfan htag j _ hsrc
  obtain ⟨pre, fin, heq, hpre, hfin, hfinal⟩ := workerEmissions_shape j (outcome j)
  refine ⟨hfilter, ⟨pre, fin, by rw [hfilter, heq], fun e he => (hpre e he).2, hfinal, hfin⟩, ?_⟩
  rw [hfilter, heq, List.countP_append]
  rw [List.countP_eq_zero.mpr (fun e he => by simp [(hpre e he).2])]
  simp [hfinal]

/-- Concrete outcomes for the C7 witness: worker 0 obtains a stream that
immediately terminates with `[DONE]`; worker 1 fails to create its stream. -/
def outcomeW : Nat → StreamWorkerOutcome := fun i =>
  if i = 0 then .gotStream (cs "data: [DONE]\n\n") else .createFailed (cs "boom")

/-- Worker 0's final (successful) emission in the C7 witness. -/
def finW0 : StreamingResult := { Stream := none, Error := none, Index := 0, Final := true }

/-- Worker 1's final (error) emission in the C7 witness. -/
def finW1 : StreamingResult :=
  { Stream := none, Error := some (cs "boom"), Index := 1, Final := true }

/-- Witness for C7: a two-request dispatch whose channel carries worker 1's
final before worker 0's, checked at both indices. -/
theorem c7_stream_fanin_witness :
    (([finW1, finW0] : List StreamingResult).filter (fun e => e.Index == 0) =
        workerEmissions 0 (outcomeW 0) ∧
      (∃ pre fin, ([finW1, finW0] : List StreamingResult).filter (fun e => e.Index == 0) =
          pre ++ [fin] ∧
        (∀ e ∈ pre, e.Final = false) ∧ fin.Final = true ∧ fin.Index = 0) ∧
      (([finW1, finW0] : List StreamingResult).filter (fun e => e.Index == 0)).countP
        (fun e => e.Final) = 1) ∧
    (([finW1, finW0] : List StreamingResult).filter (fun e => e.Index == 1) =
        workerEmissions 1 (outcomeW 1) ∧
      (∃ pre fin, ([finW1, finW0] : List StreamingResult).filter (fun e => e.Index == 1) =
          pre ++ [fin] ∧
        (∀ e ∈ pre, e.Final = false) ∧ fin.Final = true ∧ fin.Index = 1) ∧
      (([finW1, finW0] : List StreamingResult).filter (fun e => e.Index == 1)).countP
        (fun e => e.Final) = 1) := by
  have hfan : FanIn (streamDispatchSources 2 outcomeW) [finW1, finW0] := by
    refine FanIn.step _ 1 finW1 [] _ rfl ?_
    refine FanIn.step _ 0 finW0 [] _ rfl ?_
    refine FanIn.done _ ?_
    intro l hl
    have hlist : ((streamDispatchSources 2 outcomeW).set 1 []).set 0 [] =
        [[], []] := rfl
    rw [hlist] at hl
    rcases (by simpa using hl : l = [] ∨ l = []) with h | h <;> exact h
  exact ⟨c7_stream_fanin 2 outcomeW [finW1, finW0] hfan 0 (by omega),
    c7_stream_fanin 2 outcomeW [finW1, finW0] hfan 1 (by omega)⟩

end OpenRouter
